import Mathlib

/-!
# The per-deployment manifest manager (`provider/manifest/manager.go`)

A shallow embedding of the manager's event loop.  The goroutine `run` owns all
of the manager's state; every `case` of its `select` is a transition of
`step`, the code after the loop is `finish`.  What the loop does to the
outside world (answers on request channels, publications on the bus, error
log lines, starting and draining the fetch task) is recorded as a list of
`Effect`s, in program order.

Conventions of the embedding:

* Go slices are lists of their visible elements.  The one place where the
  backing array matters, the removal loop of `case id := <-m.rmleasech`, is
  modelled on the array itself (`rmleaseLoop`); the cells between length and
  capacity do not matter there (`rmleaseCap_eq_rmlease`).
* Pointers are replaced by the values they point to.
* The collaborators that live outside this file (the validation rules, the
  request verifier, the event bus) are parameters: `Env` and the bus answers.
* A handler can finish, panic, or block forever on a channel receive: `Exec`.
* A send on a response channel, on the bus or on `donech` finds its receiver;
  the fetch task always delivers its result.
-/

namespace ManifestManager

/-! ## Data declared outside the file -/

/-- Modelled from the spec: `base.Bytes`, an opaque byte string. -/
abbrev Bytes := List Nat

/-- Modelled from the spec: `types.LeaseID`, the lease identifier.  The manager
only compares identifiers with `Equal`, so an identifier is a key. -/
structure LeaseID where
  key : Nat
  deriving DecidableEq, Repr

/-- Modelled from the spec: `types.DeploymentGroup`, the group a lease is
awarded against; the manager only passes it on. -/
structure DeploymentGroup where
  key : Nat
  deriving DecidableEq, Repr

/-- Modelled from the spec: `types.Manifest`, the workload description; the
manager only passes it on. -/
structure Manifest where
  key : Nat
  deriving DecidableEq, Repr

/-- Modelled from the spec: `types.Deployment`, the deployment record.  The
manager reads and overwrites `Version`; `body` stands for every other field. -/
structure Deployment where
  body : Nat
  Version : Bytes
  deriving DecidableEq, Repr

/-- Modelled from the spec: `types.ManifestRequest`, the signed submission:
the proposed manifest, and `auth` for the key, signature and deployment
address that `VerifyRequest` inspects. -/
structure ManifestRequest where
  auth : Nat
  Manifest : Manifest
  deriving DecidableEq, Repr

/-- Go `error` values.  `ErrNotRunning` is the package's sentinel; every other
error (validation, verification, fetch, publish) is `other`. -/
inductive Error where
  | ErrNotRunning
  | other (code : Nat)
  deriving DecidableEq, Repr

/-- The identity of a response channel (`chan<- error`). -/
abbrev Chan := Nat

/-- The package's `manifestRequest`: the submission and its response channel. -/
structure manifestRequest where
  value : ManifestRequest
  ch : Chan
  deriving DecidableEq, Repr

/-- Modelled from the spec: `event.LeaseWon`, a lease award: the lease
identifier and its deployment group (`Price` is carried along). -/
structure LeaseWon where
  LeaseID : LeaseID
  Group : DeploymentGroup
  Price : Nat
  deriving DecidableEq, Repr

/-- Modelled from the spec: `event.ManifestReceived`, the correlated
notification published on the bus. -/
structure ManifestReceived where
  LeaseID : LeaseID
  Group : DeploymentGroup
  Manifest : Manifest
  Deployment : Deployment
  deriving DecidableEq, Repr

/-! ## The manager's own data -/

/-- The struct `managerChainData`. -/
structure managerChainData where
  deployment : Deployment
  dgroups : List DeploymentGroup
  deriving DecidableEq, Repr

/-- A `*time.Timer` as the manager sees it: `active` (counting down),
`stopped` (not counting, `C` empty), and, once the duration has passed without
the tick being received, `fired` on a runtime whose timer channel is buffered
(Go before 1.23: the tick waits in `C`) or `elapsed` on a runtime whose timer
channel is unbuffered (Go 1.23 and later: the tick is handed over only to a
receiver). -/
inductive Timer where
  | active
  | fired
  | elapsed
  | stopped
  deriving DecidableEq, Repr

/-- The call `t.Stop()`: the answer is `true` exactly when the call stopped the
timer before its tick was delivered.  A tick already in the buffered `C` stays
there and the answer is `false`; on the unbuffered `C` an unreceived tick is
withdrawn and the answer is `true`. -/
def Timer.Stop : Timer → Bool × Timer
  | .active => (true, .stopped)
  | .fired => (false, .fired)
  | .elapsed => (true, .stopped)
  | .stopped => (false, .stopped)

/-- The receive `<-t.C`: an active timer delivers its tick when it fires, a
fired or elapsed one at once; on a stopped timer the receive never returns
(`none`). -/
def Timer.recv : Timer → Option Timer
  | .active => some .stopped
  | .fired => some .stopped
  | .elapsed => some .stopped
  | .stopped => none

/-- The mutable fields of the struct `manager` (the channels, the session, the
bus handle and the logger are not state). -/
structure manager where
  data : Option managerChainData
  requests : List manifestRequest
  leases : List LeaseWon
  manifests : List Manifest
  versions : List Bytes
  stoptimer : Option Timer
  deriving DecidableEq, Repr

/-- The state of the goroutine `run`: the manager and the local `runch`
(`true` when it is non-nil, that is, a fetch has been started and its result
has not been received). -/
structure Sys where
  m : manager
  runch : Bool
  deriving DecidableEq, Repr

/-- The state built by `newManager`, with `var runch` still nil. -/
def Sys.init : Sys :=
  { m := { data := none, requests := [], leases := [], manifests := [],
           versions := [], stoptimer := none },
    runch := false }

/-- What the manager does to the outside world. -/
inductive Effect where
  /-- The send `req.ch <- err` (`none` is `nil`). -/
  | respond (ch : Chan) (err : Option Error)
  /-- The call `m.bus.Publish(ev)`. -/
  | publish (ev : ManifestReceived)
  /-- An `m.log.Error` line. -/
  | logError (msg : String)
  /-- The call `runner.Do` in `fetchData`: a fetch task is started. -/
  | fetchStarted
  /-- The call `cancel()` after the loop. -/
  | cancel
  /-- The receive `<-runch` after the loop: the fetch result is discarded. -/
  | fetchDrained
  /-- The deferred `donech <- m`. -/
  | done
  deriving DecidableEq, Repr

/-- How a piece of code ends: it completes with a value, it panics (the
process dies), or it blocks forever on a receive, in the state given. -/
inductive Exec (α : Type) where
  | ok (a : α)
  | panic
  | blocked (a : α)
  deriving DecidableEq, Repr

/-- The state a piece of code leaves behind, if the process is still alive. -/
def Exec.state? {α : Type} : Exec α → Option α
  | .ok a => some a
  | .panic => none
  | .blocked a => some a

/-- The collaborators of other packages: `validation.ValidateManifestWithDeployment`
and `mutil.VerifyRequest` (`none` is a nil error). -/
structure Env where
  ValidateManifestWithDeployment : Manifest → List DeploymentGroup → Option Error
  VerifyRequest : ManifestRequest → Deployment → Option Error

/-- The answers of `m.bus.Publish` during one call of `emitReceivedEvents`:
`bus i` answers the publication for the lease at index `i`. -/
abbrev BusAnswers := Nat → Option Error

/-- The responses sent, as (channel, error) pairs, in order. -/
def responses : List Effect → List (Chan × Option Error)
  | [] => []
  | .respond ch err :: fx => (ch, err) :: responses fx
  | _ :: fx => responses fx

/-- The notifications handed to the bus, in order. -/
def publications : List Effect → List ManifestReceived
  | [] => []
  | .publish ev :: fx => ev :: publications fx
  | _ :: fx => publications fx

/-! ## The methods -/

/-- The `for _, lease := range m.leases` loop of `emitReceivedEvents`, `i`
being the index of the first lease of the list. -/
def publishLoop (bus : BusAnswers) (manifest : Manifest) (deployment : Deployment) :
    Nat → List LeaseWon → List Effect
  | _, [] => []
  | i, lease :: rest =>
    let ev : ManifestReceived :=
      { LeaseID := lease.LeaseID, Group := lease.Group,
        Manifest := manifest, Deployment := deployment }
    match bus i with
    | some _ => .publish ev :: .logError "publishing event" ::
        publishLoop bus manifest deployment (i + 1) rest
    | none => .publish ev :: publishLoop bus manifest deployment (i + 1) rest

/-- The method `emitReceivedEvents`. -/
def emitReceivedEvents (bus : BusAnswers) (m : manager) : manager × List Effect :=
  match m.data with
  | none => (m, [])
  | some data =>
    if m.leases.length = 0 ∨ m.manifests.length = 0 then (m, [])
    else
      match m.manifests.getLast? with
      | none => (m, [])
      | some manifest => (m, publishLoop bus manifest data.deployment 0 m.leases)

/-- The method `validateRequest`, `data` being the non-nil `m.data`. -/
def validateRequest (env : Env) (data : managerChainData) (req : manifestRequest) :
    Option Error :=
  match env.ValidateManifestWithDeployment req.value.Manifest data.dgroups with
  | some err => some err
  | none => env.VerifyRequest req.value data.deployment

/-- The `for _, req := range m.requests` loop of `validateRequests`; the
second argument is the local `manifests` collected so far. -/
def validateLoop (env : Env) (data : managerChainData) :
    List manifestRequest → List Manifest → List Manifest × List Effect
  | [], manifests => (manifests, [])
  | req :: rest, manifests =>
    match validateRequest env data req with
    | some err =>
      let r := validateLoop env data rest manifests
      (r.1, .logError "invalid manifest" :: .respond req.ch (some err) :: r.2)
    | none =>
      let r := validateLoop env data rest (manifests ++ [req.value.Manifest])
      (r.1, .respond req.ch none :: r.2)

/-- The method `validateRequests`. -/
def validateRequests (env : Env) (m : manager) : manager × List Effect :=
  match m.data with
  | none => (m, [])
  | some data =>
    if m.requests.length = 0 then (m, [])
    else
      let r := validateLoop env data m.requests []
      let m1 := { m with requests := [] }
      match r.1 with
      | [] => (m1, r.2)
      | first :: _ => ({ m1 with manifests := m1.manifests ++ [first] }, r.2)

/-- The method `maybeScheduleStop`. -/
def maybeScheduleStop (m : manager) : Exec (manager × Bool) :=
  if m.leases.length > 0 ∨ m.manifests.length > 0 then
    match m.stoptimer with
    | none => .ok (m, false)
    | some t =>
      if t.Stop.1 then
        match t.Stop.2.recv with
        | none => .blocked ({ m with stoptimer := some t.Stop.2 }, false)
        | some _ => .ok ({ m with stoptimer := none }, false)
      else .ok ({ m with stoptimer := none }, false)
  else
    match m.stoptimer with
    | none => .ok (m, true)
    | some _ => .ok ({ m with stoptimer := some .active }, true)

/-- The method `maybeFetchData` (with `fetchData` starting the task). -/
def maybeFetchData (s : Sys) : Sys × List Effect :=
  if s.m.data = none ∧ s.runch = false then ({ s with runch := true }, [.fetchStarted])
  else (s, [])

/-- The method `doFetchData`, given the answers of the two chain queries. -/
def doFetchData (deployment : Except Error Deployment)
    (dgroups : Except Error (List DeploymentGroup)) : Except Error managerChainData :=
  match deployment with
  | .error err => .error err
  | .ok d =>
    match dgroups with
    | .error err => .error err
    | .ok gs => .ok { deployment := d, dgroups := gs }

/-- One iteration state of the removal loop: the backing array of `m.leases`
(its cells up to the capacity) and the current `len(m.leases)`. -/
structure LeaseSlice where
  arr : List LeaseWon
  len : Nat
  deriving DecidableEq, Repr

/-- The statement `m.leases = append(m.leases[:idx], m.leases[idx+1:]...)`.
`m.leases[:idx]` needs `idx ≤ cap`, `m.leases[idx+1:]` needs `idx+1 ≤ len`;
otherwise the slice expression panics.  The append fits the capacity, so it
moves the cells `idx+1 .. len-1` one place down in the same array and the
cells from `len-1` on keep what they held. -/
def spliceOut (s : LeaseSlice) (idx : Nat) : Exec LeaseSlice :=
  if idx ≤ s.arr.length ∧ idx + 1 ≤ s.len then
    .ok { arr := s.arr.take idx ++ ((s.arr.drop (idx + 1)).take (s.len - (idx + 1)) ++
            s.arr.drop (s.len - 1)),
          len := s.len - 1 }
  else .panic

/-- The loop `for idx, lease := range m.leases` of the removal case, with
`todo` iterations left, the next index being `idx`.  The range expression is
evaluated once, so the number of iterations is the length before the loop,
while each `lease` is read from the shared backing array as it then is. -/
def rmleaseLoop (id : LeaseID) : Nat → Nat → LeaseSlice → Exec LeaseSlice
  | 0, _, s => .ok s
  | todo + 1, idx, s =>
    match s.arr.get? idx with
    | none => .panic
    | some lease =>
      if id = lease.LeaseID then
        match spliceOut s idx with
        | .ok s1 => rmleaseLoop id todo (idx + 1) s1
        | .panic => .panic
        | .blocked a => .blocked a
      else rmleaseLoop id todo (idx + 1) s

/-- The removal loop run on a lease list: the list is the backing array (the
loop never reads a cell beyond the initial length), the result is the visible
part of the final slice. -/
def rmlease (id : LeaseID) (leases : List LeaseWon) : Exec (List LeaseWon) :=
  match rmleaseLoop id leases.length 0 { arr := leases, len := leases.length } with
  | .ok s => .ok (s.arr.take s.len)
  | .panic => .panic
  | .blocked s => .blocked (s.arr.take s.len)

/-- The removal loop run on a slice with spare capacity: the backing array is
the lease list followed by the cells `spare` between length and capacity. -/
def rmleaseCap (id : LeaseID) (leases spare : List LeaseWon) : Exec (List LeaseWon) :=
  match rmleaseLoop id leases.length 0
      { arr := leases ++ spare, len := leases.length } with
  | .ok s => .ok (s.arr.take s.len)
  | .panic => .panic
  | .blocked s => .blocked (s.arr.take s.len)

/-! ## The event loop -/

/-- The receiving cases of the `select` in `run`. -/
inductive Event where
  /-- The case `ev := <-m.leasech`. -/
  | leasech (ev : LeaseWon)
  /-- The case `id := <-m.rmleasech`. -/
  | rmleasech (id : LeaseID)
  /-- The case `req := <-m.manifestch`. -/
  | manifestch (req : manifestRequest)
  /-- The case `version := <-m.updatech`. -/
  | updatech (version : Bytes)
  /-- The case `result := <-runch`: the fetch failed or succeeded. -/
  | runch (result : Except Error managerChainData)

/-- A receive on the nil `runch` is never selected; the other channels are
fed by the callers at any time. -/
def enabled (s : Sys) : Event → Bool
  | .runch _ => s.runch
  | _ => true

/-- The tail shared by the cases that end with `m.maybeScheduleStop()` and,
when `refetch` is set, `runch = m.maybeFetchData(ctx, runch)`. -/
def reconcile (refetch : Bool) (s : Sys) (fx : List Effect) : List Effect × Exec Sys :=
  match maybeScheduleStop s.m with
  | .panic => (fx, .panic)
  | .blocked r => (fx, .blocked { s with m := r.1 })
  | .ok r =>
    if refetch then
      let f := maybeFetchData { s with m := r.1 }
      (fx ++ f.2, .ok f.1)
    else (fx, .ok { s with m := r.1 })

/-- One iteration of the loop of `run` that receives `e`: the effects of the
case body, and how the body ends. -/
def step (env : Env) (bus : BusAnswers) (s : Sys) : Event → List Effect × Exec Sys
  | .leasech ev =>
    let m1 := { s.m with leases := s.m.leases ++ [ev] }
    let e := emitReceivedEvents bus m1
    reconcile true { s with m := e.1 } e.2
  | .rmleasech id =>
    match rmlease id s.m.leases with
    | .panic => ([], .panic)
    | .blocked ls => ([], .blocked { s with m := { s.m with leases := ls } })
    | .ok ls => reconcile false { s with m := { s.m with leases := ls } } []
  | .manifestch req =>
    let m1 := { s.m with requests := s.m.requests ++ [req] }
    let v := validateRequests env m1
    let e := emitReceivedEvents bus v.1
    reconcile true { s with m := e.1 } (v.2 ++ e.2)
  | .updatech version =>
    let m1 := { s.m with versions := s.m.versions ++ [version] }
    match m1.data with
    | none => ([], .ok { s with m := m1 })
    | some data =>
      ([], .ok { s with m := { m1 with data := some { data with deployment :=
        { data.deployment with Version := version } } } })
  | .runch result =>
    match result with
    | .error _ => ([.logError "error fetching data"], .ok { s with runch := false })
    | .ok data =>
      let m1 := { s.m with data := some data }
      let v := validateRequests env m1
      let e := emitReceivedEvents bus v.1
      reconcile false { m := e.1, runch := false } (v.2 ++ e.2)

/-- The two cases of the `select` that leave the loop. -/
inductive Stop where
  /-- The case `err := <-m.lc.ShutdownRequest()`. -/
  | ShutdownRequest
  /-- The case `<-stopch`: the linger timer has fired. -/
  | stopch
  deriving DecidableEq, Repr

/-- The case `<-stopch` can be selected only when the timer exists and its
tick is waiting; a shutdown can be requested at any time. -/
def stopEnabled (s : Sys) : Stop → Bool
  | .ShutdownRequest => true
  | .stopch => decide (s.m.stoptimer = some .fired ∨ s.m.stoptimer = some .elapsed)

/-- The body of a leaving case, up to `break loop`. -/
def breakLoop (s : Sys) : Stop → Sys × List Effect
  | .ShutdownRequest => (s, [])
  | .stopch =>
    ({ s with m := { s.m with stoptimer := s.m.stoptimer.map (fun _ => Timer.stopped) } },
      [.logError "shutdown timer expired"])

/-- The code of `run` after the loop, the deferred `donech <- m` included. -/
def finish (s : Sys) : List Effect × Exec Sys :=
  let drain := Effect.cancel ::
    s.m.requests.map (fun req => Effect.respond req.ch (some Error.ErrNotRunning))
  let tail : List Effect := (if s.runch then [Effect.fetchDrained] else []) ++ [Effect.done]
  match s.m.stoptimer with
  | none => (drain ++ tail, .ok s)
  | some t =>
    if t.Stop.1 then
      match t.Stop.2.recv with
      | none => (drain, .blocked { s with m := { s.m with stoptimer := some t.Stop.2 } })
      | some t2 => (drain ++ tail, .ok { s with m := { s.m with stoptimer := some t2 } })
    else (drain ++ tail, .ok { s with m := { s.m with stoptimer := some t.Stop.2 } })

/-- The bus answers of a whole run: `bus k` answers the publications of the
`k`-th event handled. -/
abbrev BusSchedule := Nat → BusAnswers

/-- The schedule seen after the first event. -/
def BusSchedule.next (bus : BusSchedule) : BusSchedule := fun k => bus (k + 1)

/-- The loop of `run` receiving the events of the list in order: everything it
did, and the state it is in afterwards (or how it died). -/
def runLoop (env : Env) : BusSchedule → Sys → List Event → List Effect × Exec Sys
  | _, s, [] => ([], .ok s)
  | bus, s, e :: es =>
    match step env (bus 0) s e with
    | (fx, .ok s1) =>
      let r := runLoop env bus.next s1 es
      (fx ++ r.1, r.2)
    | (fx, .panic) => (fx, .panic)
    | (fx, .blocked a) => (fx, .blocked a)

/-- Every event of the list is enabled when its turn comes (as long as the
loop is alive). -/
def feasible (env : Env) : BusSchedule → Sys → List Event → Bool
  | _, _, [] => true
  | bus, s, e :: es =>
    enabled s e &&
      match (step env (bus 0) s e).2 with
      | .ok s1 => feasible env bus.next s1 es
      | _ => true

/-- The goroutine `run`: the loop over the events, then the leaving case
`stop` and the code after the loop.  When a case panics, the deferred
`donech <- m` still runs while the goroutine unwinds, and nothing else; when a
case blocks, nothing more happens. -/
def run (env : Env) (bus : BusSchedule) (s : Sys) (es : List Event) (stop : Stop) :
    List Effect × Exec Sys :=
  match runLoop env bus s es with
  | (fx, .ok s1) =>
    let b := breakLoop s1 stop
    let f := finish b.1
    (fx ++ (b.2 ++ f.1), f.2)
  | (fx, .panic) => (fx ++ [.done], .panic)
  | (fx, .blocked a) => (fx, .blocked a)

/-- The states the loop can be in when it waits at the `select`. -/
inductive Reachable (env : Env) : Sys → Prop where
  | init : Reachable env Sys.init
  | step {s s1 : Sys} (bus : BusAnswers) (e : Event) :
      Reachable env s → enabled s e = true → (step env bus s e).2 = .ok s1 →
      Reachable env s1

/-- The guard at the head of `emitReceivedEvents` lets the call through: the
snapshot is there and neither the lease list nor the accepted-manifest list is
empty. -/
def canEmit (m : manager) : Prop :=
  m.data ≠ none ∧ m.leases ≠ [] ∧ m.manifests ≠ []

instance canEmit.decidable (m : manager) : Decidable (canEmit m) :=
  inferInstanceAs (Decidable (m.data ≠ none ∧ m.leases ≠ [] ∧ m.manifests ≠ []))

/-- The manifest requests among the events the loop receives, in order. -/
def received : List Event → List manifestRequest
  | [] => []
  | .manifestch req :: es => req :: received es
  | _ :: es => received es

/-- The idle state that `maybeScheduleStop` tests for: no lease is tracked and
no manifest has been accepted. -/
def idle (m : manager) : Prop :=
  m.leases = [] ∧ m.manifests = []

instance idle.decidable (m : manager) : Decidable (idle m) :=
  inferInstanceAs (Decidable (m.leases = [] ∧ m.manifests = []))

/-- The queue holds requests only while the snapshot is awaited, and manifests
are accepted only once it is there. -/
def queueAwaitsData (m : manager) : Prop :=
  (m.data ≠ none → m.requests = []) ∧ (m.manifests ≠ [] → m.data ≠ none)

/-- The number of fetch tasks started (calls of `runner.Do`). -/
def fetchesStarted : List Effect → Nat
  | [] => 0
  | .fetchStarted :: fx => fetchesStarted fx + 1
  | _ :: fx => fetchesStarted fx

/-- The number of fetch results the loop has received from `runch`. -/
def fetchesReceived : List Event → Nat
  | [] => 0
  | .runch _ :: es => fetchesReceived es + 1
  | _ :: es => fetchesReceived es

/-- The fetches started and not yet received, as the local `runch` records
them: one when it is non-nil, none when it is nil. -/
def outstanding (s : Sys) : Nat :=
  if s.runch then 1 else 0

/-- The cases of the loop whose body calls `emitReceivedEvents`: a lease won,
a manifest request, a fetch that succeeded. -/
def reemits : Event → Bool
  | .leasech _ => true
  | .manifestch _ => true
  | .runch (.ok _) => true
  | _ => false

/-! ## The gateway -/

/-- Which branch of a gateway `select` is taken: the loop receives the value,
or `m.lc.ShuttingDown()` is ready first. -/
inductive Handoff where
  | received
  | shuttingDown
  deriving DecidableEq, Repr

/-- The method `handleManifest`: the event handed to the loop, if any, and
what the caller's goroutine does itself. -/
def handleManifest (h : Handoff) (req : manifestRequest) : Option Event × List Effect :=
  match h with
  | .received => (some (.manifestch req), [])
  | .shuttingDown =>
    (none, [.logError "not running: handle manifest",
            .respond req.ch (some .ErrNotRunning)])

/-- The method `handleLease`. -/
def handleLease (h : Handoff) (ev : LeaseWon) : Option Event × List Effect :=
  match h with
  | .received => (some (.leasech ev), [])
  | .shuttingDown => (none, [.logError "not running: handle manifest"])

/-- The method `removeLease`. -/
def removeLease (h : Handoff) (id : LeaseID) : Option Event × List Effect :=
  match h with
  | .received => (some (.rmleasech id), [])
  | .shuttingDown => (none, [.logError "not running: remove lease"])

/-- The method `handleUpdate`. -/
def handleUpdate (h : Handoff) (version : Bytes) : Option Event × List Effect :=
  match h with
  | .received => (some (.updatech version), [])
  | .shuttingDown => (none, [.logError "not running: version update"])


/-! ## Bookkeeping lemmas -/

theorem responses_append (a b : List Effect) :
    responses (a ++ b) = responses a ++ responses b := by
  induction a with
  | nil => rfl
  | cons x xs ih => cases x <;> simp [responses, ih]

theorem publications_append (a b : List Effect) :
    publications (a ++ b) = publications a ++ publications b := by
  induction a with
  | nil => rfl
  | cons x xs ih => cases x <;> simp [publications, ih]

theorem responses_publishLoop (bus : BusAnswers) (mf : Manifest) (d : Deployment)
    (i : Nat) (ls : List LeaseWon) : responses (publishLoop bus mf d i ls) = [] := by
  induction ls generalizing i with
  | nil => rfl
  | cons l rest ih =>
    unfold publishLoop
    cases bus i <;> simp [responses, ih]

theorem publications_publishLoop (bus : BusAnswers) (mf : Manifest) (d : Deployment)
    (i : Nat) (ls : List LeaseWon) :
    publications (publishLoop bus mf d i ls) =
      ls.map (fun l => { LeaseID := l.LeaseID, Group := l.Group,
                         Manifest := mf, Deployment := d }) := by
  induction ls generalizing i with
  | nil => rfl
  | cons l rest ih =>
    unfold publishLoop
    cases bus i <;> simp [publications, ih]

theorem emitReceivedEvents_state (bus : BusAnswers) (m : manager) :
    (emitReceivedEvents bus m).1 = m := by
  unfold emitReceivedEvents
  cases m.data with
  | none => rfl
  | some data =>
    simp only
    split
    · rfl
    · cases m.manifests.getLast? <;> rfl

theorem responses_emitReceivedEvents (bus : BusAnswers) (m : manager) :
    responses (emitReceivedEvents bus m).2 = [] := by
  unfold emitReceivedEvents
  cases m.data with
  | none => rfl
  | some data =>
    simp only
    split
    · rfl
    · cases m.manifests.getLast? with
      | none => rfl
      | some mf => exact responses_publishLoop bus mf _ 0 _

theorem publications_emitReceivedEvents (bus : BusAnswers) (m : manager)
    (data : managerChainData) (hd : m.data = some data)
    (hl : m.leases ≠ []) (hm : m.manifests ≠ []) :
    publications (emitReceivedEvents bus m).2 =
      m.leases.map (fun l => { LeaseID := l.LeaseID, Group := l.Group,
                               Manifest := m.manifests.getLast hm,
                               Deployment := data.deployment }) := by
  unfold emitReceivedEvents
  have h0 : ¬ (m.leases.length = 0 ∨ m.manifests.length = 0) := by
    simp [List.length_eq_zero, hl, hm]
  simp only [hd, h0, if_false, List.getLast?_eq_getLast _ hm]
  exact publications_publishLoop bus _ _ 0 _

theorem publications_emitReceivedEvents_nil (bus : BusAnswers) (m : manager)
    (h : m.data = none ∨ m.leases = [] ∨ m.manifests = []) :
    publications (emitReceivedEvents bus m).2 = [] := by
  unfold emitReceivedEvents
  cases hd : m.data with
  | none => rfl
  | some data =>
    simp only
    rcases h with h | h | h
    · simp [hd] at h
    · simp [h, publications]
    · simp [h, publications]


theorem publications_validateLoop (env : Env) (data : managerChainData)
    (rs : List manifestRequest) (acc : List Manifest) :
    publications (validateLoop env data rs acc).2 = [] := by
  induction rs generalizing acc with
  | nil => rfl
  | cons r rest ih =>
    unfold validateLoop
    cases validateRequest env data r <;> simp [publications, ih]

theorem responses_validateLoop (env : Env) (data : managerChainData)
    (rs : List manifestRequest) (acc : List Manifest) :
    responses (validateLoop env data rs acc).2 =
      rs.map (fun r => (r.ch, validateRequest env data r)) := by
  induction rs generalizing acc with
  | nil => rfl
  | cons r rest ih =>
    unfold validateLoop
    cases h : validateRequest env data r <;> simp [responses, ih, h]

theorem collected_validateLoop (env : Env) (data : managerChainData)
    (rs : List manifestRequest) (acc : List Manifest) :
    (validateLoop env data rs acc).1 =
      acc ++ (rs.filter (fun r => (validateRequest env data r).isNone)).map
        (fun r => r.value.Manifest) := by
  induction rs generalizing acc with
  | nil => simp [validateLoop]
  | cons r rest ih =>
    unfold validateLoop
    cases h : validateRequest env data r <;> simp [ih, h]

/-- The manifest that a validation batch retains: that of the first request of
the queue that passes both checks. -/
theorem head_collected (env : Env) (data : managerChainData) (rs : List manifestRequest) :
    ((rs.filter (fun r => (validateRequest env data r).isNone)).map
        (fun r => r.value.Manifest)).head? =
      (rs.find? (fun r => (validateRequest env data r).isNone)).map
        (fun r => r.value.Manifest) := by
  induction rs with
  | nil => rfl
  | cons r rest ih =>
    cases h : validateRequest env data r <;> simp [List.filter, List.find?, h, ih]

theorem validateRequests_eq (env : Env) (m : manager) (data : managerChainData)
    (hd : m.data = some data) (hq : m.requests ≠ []) :
    validateRequests env m =
      ({ m with requests := [],
                manifests := m.manifests ++
                  ((m.requests.find? (fun r => (validateRequest env data r).isNone)).map
                    (fun r => r.value.Manifest)).toList },
        (validateLoop env data m.requests []).2) := by
  unfold validateRequests
  have h0 : ¬ m.requests.length = 0 := by simp [List.length_eq_zero, hq]
  simp only [hd, h0, if_false]
  have hc := collected_validateLoop env data m.requests []
  simp only [List.nil_append] at hc
  have hh := head_collected env data m.requests
  rw [← hc] at hh
  cases hl : (validateLoop env data m.requests []).1 with
  | nil =>
    rw [hl] at hh
    simp only [List.head?_nil] at hh
    rw [← hh]
    simp
  | cons first rest =>
    rw [hl] at hh
    simp only [List.head?_cons] at hh
    rw [← hh]
    simp

theorem validateRequests_idle (env : Env) (m : manager)
    (h : m.data = none ∨ m.requests = []) : validateRequests env m = (m, []) := by
  unfold validateRequests
  cases hd : m.data with
  | none => rfl
  | some data =>
    rcases h with h | h
    · simp [hd] at h
    · simp [h]


theorem maybeScheduleStop_cases (m : manager) :
    ∃ t b, maybeScheduleStop m = .ok ({ m with stoptimer := t }, b) ∨
      maybeScheduleStop m = .blocked ({ m with stoptimer := t }, b) := by
  unfold maybeScheduleStop
  split
  · cases ht : m.stoptimer with
    | none => exact ⟨none, false, Or.inl (by cases m; simp_all)⟩
    | some t => cases t <;> simp [Timer.Stop, Timer.recv]
  · cases ht : m.stoptimer with
    | none => exact ⟨none, true, Or.inl (by cases m; simp_all)⟩
    | some t => simp

theorem maybeScheduleStop_no_timer (m : manager) (h : m.stoptimer = none) :
    ∃ b, maybeScheduleStop m = .ok (m, b) := by
  unfold maybeScheduleStop
  split <;> simp [h]

/-- The tail of a case touches only the timer and `runch`, sends no response
and publishes nothing. -/
theorem reconcile_frame (refetch : Bool) (s : Sys) (fx : List Effect) :
    ∃ s1, (reconcile refetch s fx).2.state? = some s1 ∧
      s1.m.data = s.m.data ∧ s1.m.requests = s.m.requests ∧
      s1.m.leases = s.m.leases ∧ s1.m.manifests = s.m.manifests ∧
      s1.m.versions = s.m.versions ∧
      responses (reconcile refetch s fx).1 = responses fx ∧
      publications (reconcile refetch s fx).1 = publications fx := by
  obtain ⟨t, b, h | h⟩ := maybeScheduleStop_cases s.m
  · unfold reconcile
    rw [h]
    cases refetch
    · simp [Exec.state?]
    · simp only [maybeFetchData, if_true]
      split <;> simp [Exec.state?, responses_append, publications_append, responses,
        publications]
  · unfold reconcile
    rw [h]
    simp [Exec.state?]

/-- Without a timer the tail of a case completes. -/
theorem reconcile_ok (refetch : Bool) (s : Sys) (fx : List Effect)
    (h : s.m.stoptimer = none) :
    ∃ s1, (reconcile refetch s fx).2 = .ok s1 ∧ s1.m = s.m := by
  obtain ⟨b, hb⟩ := maybeScheduleStop_no_timer s.m h
  unfold reconcile
  rw [hb]
  cases refetch
  · simp
  · simp only [maybeFetchData, if_true]
    split <;> simp

theorem publications_validateRequests (env : Env) (m : manager) :
    publications (validateRequests env m).2 = [] := by
  unfold validateRequests
  cases m.data with
  | none => rfl
  | some data =>
    simp only
    split
    · rfl
    · split <;> exact publications_validateLoop env data _ _

theorem validateRequests_frame (env : Env) (m : manager) :
    (validateRequests env m).1.data = m.data ∧
    (validateRequests env m).1.leases = m.leases ∧
    (validateRequests env m).1.stoptimer = m.stoptimer ∧
    (validateRequests env m).1.versions = m.versions := by
  unfold validateRequests
  cases hd : m.data with
  | none => simp [hd]
  | some data =>
    simp only
    split
    · simp [hd]
    · split <;> simp [hd]


/-- When no cell of the array holds the identifier, the removal loop changes
nothing. -/
theorem rmleaseLoop_no_match (id : LeaseID) (todo idx : Nat) (s : LeaseSlice)
    (hb : idx + todo ≤ s.arr.length) (hn : ∀ l ∈ s.arr, l.LeaseID ≠ id) :
    rmleaseLoop id todo idx s = .ok s := by
  induction todo generalizing idx with
  | zero => rfl
  | succ n ih =>
    unfold rmleaseLoop
    have hlt : idx < s.arr.length := by omega
    have hget : s.arr.get? idx = some (s.arr.get ⟨idx, hlt⟩) := List.get?_eq_get hlt
    rw [hget]
    have hne : ¬ id = (s.arr.get ⟨idx, hlt⟩).LeaseID :=
      fun h => hn _ (List.get_mem _ _ _) h.symm
    simp only [hne, if_false]
    exact ih (idx + 1) (by omega)

theorem rmlease_no_match (id : LeaseID) (leases : List LeaseWon)
    (hn : ∀ l ∈ leases, l.LeaseID ≠ id) : rmlease id leases = .ok leases := by
  unfold rmlease
  rw [rmleaseLoop_no_match id leases.length 0 _ (by simp) hn]
  simp

/-! ## The claims -/

/-- C4: with the snapshot present, leases [l1..ln] (n > 0) and a non-empty
accepted-manifest list, `emitReceivedEvents` attempts exactly n publications,
the i-th being (li.LeaseID, li.Group, last accepted manifest, the snapshot's
deployment), in lease order, whatever the bus answers to each of them, and the
manager's state is the same after the call. -/
theorem emitReceivedEvents_publishes_one_per_lease (bus : BusAnswers) (m : manager)
    (data : managerChainData) (hd : m.data = some data)
    (hl : m.leases ≠ []) (hm : m.manifests ≠ []) :
    publications (emitReceivedEvents bus m).2 =
        m.leases.map (fun l => { LeaseID := l.LeaseID, Group := l.Group,
                                 Manifest := m.manifests.getLast hm,
                                 Deployment := data.deployment }) ∧
    (publications (emitReceivedEvents bus m).2).length = m.leases.length ∧
    (emitReceivedEvents bus m).1 = m := by
  have h := publications_emitReceivedEvents bus m data hd hl hm
  refine ⟨h, ?_, emitReceivedEvents_state bus m⟩
  rw [h, List.length_map]

/-- C4 at a concrete state: two leases, two accepted manifests, and a bus that
rejects the first publication only. -/
theorem emitReceivedEvents_publishes_one_per_lease_witness :
    publications (emitReceivedEvents (fun i => if i = 0 then some (.other 1) else none)
        { data := some { deployment := ⟨5, [1]⟩, dgroups := [⟨10⟩] },
          requests := [], leases := [⟨⟨1⟩, ⟨10⟩, 3⟩, ⟨⟨2⟩, ⟨20⟩, 4⟩],
          manifests := [⟨7⟩, ⟨8⟩], versions := [], stoptimer := none }).2 =
      [⟨⟨1⟩, ⟨10⟩, ⟨8⟩, ⟨5, [1]⟩⟩, ⟨⟨2⟩, ⟨20⟩, ⟨8⟩, ⟨5, [1]⟩⟩] :=
  (emitReceivedEvents_publishes_one_per_lease _
    { data := some { deployment := ⟨5, [1]⟩, dgroups := [⟨10⟩] },
      requests := [], leases := [⟨⟨1⟩, ⟨10⟩, 3⟩, ⟨⟨2⟩, ⟨20⟩, 4⟩],
      manifests := [⟨7⟩, ⟨8⟩], versions := [], stoptimer := none }
    { deployment := ⟨5, [1]⟩, dgroups := [⟨10⟩] } rfl (by simp) (by simp)).1

/-- C5: with the snapshot present and a non-empty queue [r1..rn],
`validateRequests` sends exactly n responses, the i-th to ri in queue order:
the group-validation error if validating ri's manifest against the snapshot's
groups fails, otherwise the verification error if verifying ri against the
snapshot's deployment fails, otherwise nil; every request is answered whatever
happened to the earlier ones, and the queue is empty afterwards. -/
theorem validateRequests_answers_each_in_order (env : Env) (m : manager)
    (data : managerChainData) (hd : m.data = some data) (hq : m.requests ≠ []) :
    responses (validateRequests env m).2 =
        m.requests.map (fun req => (req.ch,
          match env.ValidateManifestWithDeployment req.value.Manifest data.dgroups with
          | some err => some err
          | none => env.VerifyRequest req.value data.deployment)) ∧
    (responses (validateRequests env m).2).length = m.requests.length ∧
    (validateRequests env m).1.requests = [] := by
  have h := validateRequests_eq env m data hd hq
  have hr := responses_validateLoop env data m.requests []
  rw [h]
  refine ⟨hr, ?_, rfl⟩
  simp only [hr, List.length_map]

/-- C5 at a concrete queue: the first request fails group validation, the
second fails verification, the third passes. -/
theorem validateRequests_answers_each_in_order_witness :
    responses (validateRequests
        ⟨fun mf _ => if mf.key = 1 then some (.other 11) else none,
         fun r _ => if r.auth = 2 then some (.other 22) else none⟩
        { data := some { deployment := ⟨5, []⟩, dgroups := [⟨10⟩] },
          requests := [⟨⟨0, ⟨1⟩⟩, 100⟩, ⟨⟨2, ⟨2⟩⟩, 101⟩, ⟨⟨0, ⟨3⟩⟩, 102⟩],
          leases := [], manifests := [], versions := [], stoptimer := none }).2 =
      [(100, some (.other 11)), (101, some (.other 22)), (102, none)] :=
  (validateRequests_answers_each_in_order
    ⟨fun mf _ => if mf.key = 1 then some (.other 11) else none,
     fun r _ => if r.auth = 2 then some (.other 22) else none⟩
    { data := some { deployment := ⟨5, []⟩, dgroups := [⟨10⟩] },
      requests := [⟨⟨0, ⟨1⟩⟩, 100⟩, ⟨⟨2, ⟨2⟩⟩, 101⟩, ⟨⟨0, ⟨3⟩⟩, 102⟩],
      leases := [], manifests := [], versions := [], stoptimer := none }
    { deployment := ⟨5, []⟩, dgroups := [⟨10⟩] } rfl (by simp)).1


theorem validateRequest_isNone (env : Env) (data : managerChainData) (req : manifestRequest) :
    (validateRequest env data req).isNone =
      decide (env.ValidateManifestWithDeployment req.value.Manifest data.dgroups = none ∧
        env.VerifyRequest req.value data.deployment = none) := by
  unfold validateRequest
  cases h1 : env.ValidateManifestWithDeployment req.value.Manifest data.dgroups with
  | some err => simp
  | none =>
    cases h2 : env.VerifyRequest req.value data.deployment <;> simp

/-- C6: after a validation batch (snapshot present, queue non-empty) the
accepted-manifest list is the list before with one manifest appended, that of
the first request, in queue order, for which both
`ValidateManifestWithDeployment` (manifest against the snapshot's groups) and
`VerifyRequest` (request against the snapshot's deployment) return nil, or the
list before when there is no such request; with two queued requests that both
pass the two checks, both are answered nil, only the first one's manifest is
appended and the list grows by exactly one. -/
theorem validateRequests_retains_first_passing (env : Env) (m : manager)
    (data : managerChainData) (hd : m.data = some data) (hq : m.requests ≠ []) :
    (validateRequests env m).1.manifests =
        m.manifests ++
          ((m.requests.find? (fun req =>
              decide (env.ValidateManifestWithDeployment req.value.Manifest data.dgroups
                  = none ∧
                env.VerifyRequest req.value data.deployment = none))).map
            (fun req => req.value.Manifest)).toList ∧
    (∀ r3 r4 : manifestRequest, m.requests = [r3, r4] →
      env.ValidateManifestWithDeployment r3.value.Manifest data.dgroups = none →
      env.VerifyRequest r3.value data.deployment = none →
      env.ValidateManifestWithDeployment r4.value.Manifest data.dgroups = none →
      env.VerifyRequest r4.value data.deployment = none →
      responses (validateRequests env m).2 = [(r3.ch, none), (r4.ch, none)] ∧
      (validateRequests env m).1.manifests = m.manifests ++ [r3.value.Manifest] ∧
      (validateRequests env m).1.manifests.length = m.manifests.length + 1) := by
  have h := validateRequests_eq env m data hd hq
  have hr := responses_validateLoop env data m.requests []
  have hp : (fun req => (validateRequest env data req).isNone) =
      (fun req => decide
        (env.ValidateManifestWithDeployment req.value.Manifest data.dgroups = none ∧
          env.VerifyRequest req.value data.deployment = none)) :=
    funext (validateRequest_isNone env data)
  rw [h]
  refine ⟨?_, ?_⟩
  · simp only [hp]
  · intro r3 r4 hreq a3 b3 a4 b4
    have h3 : validateRequest env data r3 = none := by
      simp [validateRequest, a3, b3]
    have h4 : validateRequest env data r4 = none := by
      simp [validateRequest, a4, b4]
    simp only [hr]
    simp [hreq, h3, h4]

/-- C6 at a concrete batch: the first request fails the group validation, the
second fails the verification, the third and the fourth pass both checks; the
manifest of the third, and only that one, is retained. -/
theorem validateRequests_retains_first_passing_witness :
    (validateRequests
        ⟨fun mf _ => if mf.key = 1 then some (.other 11) else none,
         fun r _ => if r.auth = 2 then some (.other 22) else none⟩
        { data := some { deployment := ⟨5, []⟩, dgroups := [⟨10⟩] },
          requests := [⟨⟨0, ⟨1⟩⟩, 100⟩, ⟨⟨2, ⟨2⟩⟩, 101⟩, ⟨⟨0, ⟨3⟩⟩, 102⟩,
                       ⟨⟨0, ⟨4⟩⟩, 103⟩],
          leases := [], manifests := [⟨9⟩], versions := [],
          stoptimer := none }).1.manifests =
      [⟨9⟩, ⟨3⟩] :=
  (validateRequests_retains_first_passing
    ⟨fun mf _ => if mf.key = 1 then some (.other 11) else none,
     fun r _ => if r.auth = 2 then some (.other 22) else none⟩
    { data := some { deployment := ⟨5, []⟩, dgroups := [⟨10⟩] },
      requests := [⟨⟨0, ⟨1⟩⟩, 100⟩, ⟨⟨2, ⟨2⟩⟩, 101⟩, ⟨⟨0, ⟨3⟩⟩, 102⟩,
                   ⟨⟨0, ⟨4⟩⟩, 103⟩],
      leases := [], manifests := [⟨9⟩], versions := [], stoptimer := none }
    { deployment := ⟨5, []⟩, dgroups := [⟨10⟩] } rfl (by simp)).1

/-- C7, at the failing input: with the lease A tracked twice before B, the
removal of A leaves [A, B], while removing every entry equal to A would leave
[B]; with A tracked twice and nothing behind it the loop panics. -/
theorem rmleasech_keeps_a_duplicate :
    (step ⟨fun _ _ => none, fun _ _ => none⟩ (fun _ => none)
        { m := { data := none, requests := [],
                 leases := [⟨⟨1⟩, ⟨10⟩, 0⟩, ⟨⟨1⟩, ⟨10⟩, 0⟩, ⟨⟨2⟩, ⟨20⟩, 0⟩],
                 manifests := [], versions := [], stoptimer := none },
          runch := true }
        (.rmleasech ⟨1⟩)).2 =
      .ok { m := { data := none, requests := [],
                   leases := [⟨⟨1⟩, ⟨10⟩, 0⟩, ⟨⟨2⟩, ⟨20⟩, 0⟩],
                   manifests := [], versions := [], stoptimer := none },
            runch := true } ∧
    ([⟨⟨1⟩, ⟨10⟩, 0⟩, ⟨⟨1⟩, ⟨10⟩, 0⟩, ⟨⟨2⟩, ⟨20⟩, 0⟩] : List LeaseWon).filter
        (fun l => decide (l.LeaseID ≠ ⟨1⟩)) = [⟨⟨2⟩, ⟨20⟩, 0⟩] ∧
    rmlease ⟨1⟩ [⟨⟨1⟩, ⟨10⟩, 0⟩, ⟨⟨1⟩, ⟨10⟩, 0⟩] = .panic := by
  refine ⟨by decide, by decide, by decide⟩

/-- C8: when the identifier equals the LeaseID of no tracked lease, handling
the removal leaves the lease list as it was (same entries, same order, same
length): the removal loop returns the list, and so does the whole case. -/
theorem rmleasech_absent_id_keeps_leases (env : Env) (bus : BusAnswers) (s : Sys)
    (id : LeaseID) (hn : ∀ l ∈ s.m.leases, l.LeaseID ≠ id) :
    rmlease id s.m.leases = .ok s.m.leases ∧
    (step env bus s (.rmleasech id)).1 = [] ∧
    ∃ s1, (step env bus s (.rmleasech id)).2.state? = some s1 ∧
      s1.m.leases = s.m.leases ∧ s1.m.leases.length = s.m.leases.length := by
  have h := rmlease_no_match id s.m.leases hn
  refine ⟨h, ?_, ?_⟩
  · simp only [step, h]
    obtain ⟨t, b, h1 | h1⟩ := maybeScheduleStop_cases s.m
    all_goals
      have h2 : ({ s.m with leases := s.m.leases } : manager) = s.m := rfl
      simp [reconcile, h2, h1]
  · simp only [step, h]
    obtain ⟨s1, h1, _, _, h3, _⟩ :=
      reconcile_frame false { s with m := { s.m with leases := s.m.leases } } []
    exact ⟨s1, h1, h3, by rw [h3]⟩

/-- C8 at a concrete list: removing the identifier 9 from the leases 1, 2. -/
theorem rmleasech_absent_id_keeps_leases_witness :
    rmlease ⟨9⟩ [⟨⟨1⟩, ⟨10⟩, 0⟩, ⟨⟨2⟩, ⟨20⟩, 0⟩] =
      .ok [⟨⟨1⟩, ⟨10⟩, 0⟩, ⟨⟨2⟩, ⟨20⟩, 0⟩] :=
  (rmleasech_absent_id_keeps_leases ⟨fun _ _ => none, fun _ _ => none⟩ (fun _ => none)
    { m := { data := none, requests := [],
             leases := [⟨⟨1⟩, ⟨10⟩, 0⟩, ⟨⟨2⟩, ⟨20⟩, 0⟩],
             manifests := [], versions := [], stoptimer := none },
      runch := false }
    ⟨9⟩ (by decide)).1


theorem canEmit_of_publications (bus : BusAnswers) (m : manager)
    (h : publications (emitReceivedEvents bus m).2 ≠ []) : canEmit m := by
  by_contra hc
  apply h
  apply publications_emitReceivedEvents_nil
  unfold canEmit at hc
  by_cases h1 : m.data = none
  · exact Or.inl h1
  · by_cases h2 : m.leases = []
    · exact Or.inr (Or.inl h2)
    · by_cases h3 : m.manifests = []
      · exact Or.inr (Or.inr h3)
      · exact absurd ⟨h1, h2, h3⟩ hc

theorem canEmit_congr {m m1 : manager} (hd : m1.data = m.data) (hl : m1.leases = m.leases)
    (hm : m1.manifests = m.manifests) (h : canEmit m) : canEmit m1 := by
  unfold canEmit at *
  rw [hd, hl, hm]
  exact h

theorem emit_tail_canEmit (bus : BusAnswers) (refetch r : Bool) (m : manager)
    (pre : List Effect) (hpre : publications pre = [])
    (h : publications (reconcile refetch { m := (emitReceivedEvents bus m).1, runch := r }
          (pre ++ (emitReceivedEvents bus m).2)).1 ≠ []) :
    ∃ s1, (reconcile refetch { m := (emitReceivedEvents bus m).1, runch := r }
          (pre ++ (emitReceivedEvents bus m).2)).2.state? = some s1 ∧ canEmit s1.m := by
  obtain ⟨s1, h1, hd, _, hl, hm, _, _, hp⟩ := reconcile_frame refetch
    { m := (emitReceivedEvents bus m).1, runch := r } (pre ++ (emitReceivedEvents bus m).2)
  rw [hp, publications_append, hpre, List.nil_append] at h
  exact ⟨s1, h1, canEmit_congr (by rw [hd, emitReceivedEvents_state])
    (by rw [hl, emitReceivedEvents_state]) (by rw [hm, emitReceivedEvents_state])
    (canEmit_of_publications bus _ h)⟩

/-- A case that publishes leaves the manager in a state that passes the guard
of `emitReceivedEvents`; the publications were made in that state, since the
tail of the case touches only the timer and `runch`. -/
theorem step_publications_canEmit (env : Env) (bus : BusAnswers) (s : Sys) (e : Event)
    (h : publications (step env bus s e).1 ≠ []) :
    ∃ s1, (step env bus s e).2.state? = some s1 ∧ canEmit s1.m := by
  cases e with
  | leasech ev =>
    exact emit_tail_canEmit bus true s.runch _ [] rfl h
  | rmleasech id =>
    exfalso
    apply h
    simp only [step]
    cases rmlease id s.m.leases with
    | panic => rfl
    | blocked ls => rfl
    | ok ls =>
      obtain ⟨_, _, _, _, _, _, _, _, hp⟩ :=
        reconcile_frame false { s with m := { s.m with leases := ls } } []
      rw [hp]
      rfl
  | manifestch req =>
    exact emit_tail_canEmit bus true s.runch _ _ (publications_validateRequests env _) h
  | updatech version =>
    exfalso
    apply h
    simp only [step]
    cases s.m.data <;> rfl
  | runch result =>
    cases result with
    | error err => exact absurd rfl h
    | ok data =>
      exact emit_tail_canEmit bus false false _ _ (publications_validateRequests env _) h

theorem runLoop_cons (env : Env) (bus : BusSchedule) (s : Sys) (e : Event) (es : List Event) :
    runLoop env bus s (e :: es) =
      match (step env (bus 0) s e).2 with
      | .ok s1 => ((step env (bus 0) s e).1 ++ (runLoop env bus.next s1 es).1,
                    (runLoop env bus.next s1 es).2)
      | .panic => ((step env (bus 0) s e).1, .panic)
      | .blocked a => ((step env (bus 0) s e).1, .blocked a) := by
  conv_lhs => unfold runLoop
  rcases hstep : step env (bus 0) s e with ⟨fx, x⟩
  cases x <;> rfl

/-- As long as no state along the way passes the guard of `emitReceivedEvents`,
the loop has published nothing. -/
theorem runLoop_silent (env : Env) (es : List Event) :
    ∀ (bus : BusSchedule) (s : Sys),
      (∀ k s1, (runLoop env bus s (es.take k)).2.state? = some s1 → ¬ canEmit s1.m) →
      publications (runLoop env bus s es).1 = [] := by
  induction es with
  | nil => intro bus s _; rfl
  | cons e rest ih =>
    intro bus s hall
    have hfirst : publications (step env (bus 0) s e).1 = [] := by
      by_contra hne
      obtain ⟨s1, h1, hc⟩ := step_publications_canEmit env (bus 0) s e hne
      refine hall 1 s1 ?_ hc
      simp only [List.take_succ_cons, List.take_zero, runLoop_cons]
      cases hx : (step env (bus 0) s e).2 with
      | ok a => rw [hx] at h1; simpa [runLoop, Exec.state?] using h1
      | panic => rw [hx] at h1; simp [Exec.state?] at h1
      | blocked a => rw [hx] at h1; simpa [Exec.state?] using h1
    rw [runLoop_cons]
    cases hx : (step env (bus 0) s e).2 with
    | ok a =>
      simp only [publications_append, hfirst, List.nil_append]
      apply ih
      intro k s1 hk
      apply hall (k + 1) s1
      simp only [List.take_succ_cons, runLoop_cons, hx]
      exact hk
    | panic => exact hfirst
    | blocked a => exact hfirst

/-- C3: whenever handling an event in a state reachable from the initial state
publishes a notification, the publication is made with the snapshot present,
the lease list non-empty and the accepted-manifest list non-empty (this is the
guard of `emitReceivedEvents`, and the rest of the case keeps the three); so a
run along which the three never hold together publishes nothing. -/
theorem publishes_only_when_all_three_present (env : Env) :
    (∀ (bus : BusAnswers) (m : manager),
      publications (emitReceivedEvents bus m).2 ≠ [] → canEmit m) ∧
    (∀ (s : Sys), Reachable env s → ∀ (bus : BusAnswers) (e : Event),
      publications (step env bus s e).1 ≠ [] →
      ∃ s1, (step env bus s e).2.state? = some s1 ∧
        s1.m.data ≠ none ∧ s1.m.leases ≠ [] ∧ s1.m.manifests ≠ []) ∧
    (∀ (bus : BusSchedule) (es : List Event),
      (∀ k s1, (runLoop env bus Sys.init (es.take k)).2.state? = some s1 →
        ¬ (s1.m.data ≠ none ∧ s1.m.leases ≠ [] ∧ s1.m.manifests ≠ [])) →
      publications (runLoop env bus Sys.init es).1 = []) :=
  ⟨fun bus m h => canEmit_of_publications bus m h,
   fun s _ bus e h => step_publications_canEmit env bus s e h,
   fun bus es h => runLoop_silent env es bus Sys.init h⟩


theorem perm_two {α : Type} {a b : α} {l : List α} (h : l.Perm [a, b]) :
    l = [a, b] ∨ l = [b, a] := by
  match l, h with
  | [x, y], h =>
    have hx : x ∈ [a, b] := h.subset (List.mem_cons_self _ _)
    simp only [List.mem_cons, List.mem_singleton, List.not_mem_nil, or_false] at hx
    rcases hx with rfl | rfl
    · have h1 := List.Perm.cons_inv h
      rw [List.perm_singleton.1 h1]
      exact Or.inl rfl
    · have h1 : ([x, y] : List α).Perm [x, a] := h.trans (List.Perm.swap _ _ _)
      have h2 := List.Perm.cons_inv h1
      rw [List.perm_singleton.1 h2]
      exact Or.inr rfl
  | [], h => exact absurd h.length_eq (by simp)
  | [_], h => exact absurd h.length_eq (by simp)
  | _ :: _ :: _ :: _, h => exact absurd h.length_eq (by simp)

theorem perm_three {α : Type} {a b c : α} {l : List α} (h : l.Perm [a, b, c]) :
    l = [a, b, c] ∨ l = [a, c, b] ∨ l = [b, a, c] ∨ l = [b, c, a] ∨ l = [c, a, b] ∨
      l = [c, b, a] := by
  match l, h with
  | x :: rest, h =>
    have hx : x ∈ [a, b, c] := h.subset (List.mem_cons_self _ _)
    simp only [List.mem_cons, List.mem_singleton, List.not_mem_nil, or_false] at hx
    rcases hx with rfl | rfl | rfl
    · rcases perm_two (List.Perm.cons_inv h) with h2 | h2 <;> subst h2 <;> simp
    · have h1 : (x :: rest).Perm [x, a, c] := h.trans (List.Perm.swap _ _ _)
      rcases perm_two (List.Perm.cons_inv h1) with h2 | h2 <;> subst h2 <;> simp
    · have h1 : (x :: rest).Perm [x, a, b] :=
        h.trans ((@List.perm_append_comm _ [a, b] [_]))
      rcases perm_two (List.Perm.cons_inv h1) with h2 | h2 <;> subst h2 <;> simp
  | [], h => exact absurd h.length_eq (by simp)


theorem reconcile_no_timer (refetch : Bool) (s : Sys) (fx : List Effect)
    (h : s.m.stoptimer = none) :
    reconcile refetch s fx =
      if refetch then (fx ++ (maybeFetchData s).2, .ok (maybeFetchData s).1)
      else (fx, .ok s) := by
  obtain ⟨b, hb⟩ := maybeScheduleStop_no_timer s.m h
  unfold reconcile
  rw [hb]

theorem step_leasech_no_timer (env : Env) (bus : BusAnswers) (s : Sys) (ev : LeaseWon)
    (h : s.m.stoptimer = none) :
    step env bus s (.leasech ev) =
      ((emitReceivedEvents bus { s.m with leases := s.m.leases ++ [ev] }).2 ++
          (maybeFetchData { s with m := { s.m with leases := s.m.leases ++ [ev] } }).2,
        .ok (maybeFetchData { s with m := { s.m with leases := s.m.leases ++ [ev] } }).1) := by
  simp only [step, emitReceivedEvents_state]
  refine (reconcile_no_timer _ _ _ ?_).trans ?_
  · exact h
  · rfl

theorem step_manifestch_no_timer (env : Env) (bus : BusAnswers) (s : Sys)
    (req : manifestRequest) (h : s.m.stoptimer = none) :
    step env bus s (.manifestch req) =
      ((validateRequests env { s.m with requests := s.m.requests ++ [req] }).2 ++
          (emitReceivedEvents bus
            (validateRequests env { s.m with requests := s.m.requests ++ [req] }).1).2 ++
          (maybeFetchData { s with m :=
            (validateRequests env { s.m with requests := s.m.requests ++ [req] }).1 }).2,
        .ok (maybeFetchData { s with m :=
            (validateRequests env { s.m with requests := s.m.requests ++ [req] }).1 }).1) := by
  simp only [step, emitReceivedEvents_state]
  refine (reconcile_no_timer _ _ _ ?_).trans ?_
  · exact (validateRequests_frame env _).2.2.1.trans h
  · rfl

theorem step_runch_ok_no_timer (env : Env) (bus : BusAnswers) (s : Sys)
    (data : managerChainData) (h : s.m.stoptimer = none) :
    step env bus s (.runch (.ok data)) =
      ((validateRequests env { s.m with data := some data }).2 ++
          (emitReceivedEvents bus (validateRequests env { s.m with data := some data }).1).2,
        .ok { m := (validateRequests env { s.m with data := some data }).1,
              runch := false }) := by
  simp only [step, emitReceivedEvents_state]
  refine (reconcile_no_timer _ _ _ ?_).trans ?_
  · exact (validateRequests_frame env _).2.2.1.trans h
  · rfl


theorem finish_effects (s : Sys) (stop : Stop) :
    responses ((breakLoop s stop).2 ++ (finish (breakLoop s stop).1).1) =
        s.m.requests.map (fun req => (req.ch, some Error.ErrNotRunning)) ∧
    publications ((breakLoop s stop).2 ++ (finish (breakLoop s stop).1).1) = [] := by
  have hresp : ∀ rs : List manifestRequest,
      responses (rs.map (fun req => Effect.respond req.ch (some Error.ErrNotRunning))) =
        rs.map (fun req => (req.ch, some Error.ErrNotRunning)) := by
    intro rs
    induction rs with
    | nil => rfl
    | cons r rest ih => simp [responses, ih]
  have hpub : ∀ rs : List manifestRequest,
      publications (rs.map (fun req => Effect.respond req.ch (some Error.ErrNotRunning))) =
        [] := by
    intro rs
    induction rs with
    | nil => rfl
    | cons r rest ih => simp [publications, ih]
  have hq : (breakLoop s stop).1.m.requests = s.m.requests := by
    cases stop <;> rfl
  have hb : responses (breakLoop s stop).2 = [] ∧ publications (breakLoop s stop).2 = [] := by
    cases stop <;> exact ⟨rfl, rfl⟩
  generalize breakLoop s stop = b at hq hb
  rw [responses_append, publications_append, hb.1, hb.2, ← hq]
  unfold finish
  cases ht : b.1.m.stoptimer with
  | none =>
    cases hr : b.1.runch <;>
      simp [responses, publications, responses_append, publications_append, hresp, hpub]
  | some t =>
    cases hr : b.1.runch <;> cases t <;>
      simp [Timer.Stop, Timer.recv, responses, publications, responses_append,
        publications_append, hresp, hpub]

/-- Without a timer the code after the loop runs to its end. -/
theorem finish_ok_no_timer (s : Sys) (stop : Stop) (h : s.m.stoptimer = none) :
    (finish (breakLoop s stop).1).2 = .ok (breakLoop s stop).1 := by
  have hb : (breakLoop s stop).1.m.stoptimer = none := by
    cases stop
    · exact h
    · simp [breakLoop, h]
  unfold finish
  rw [hb]

theorem run_of_runLoop_ok (env : Env) (bus : BusSchedule) (s s1 : Sys) (es : List Event)
    (stop : Stop) (fx : List Effect) (h : runLoop env bus s es = (fx, .ok s1)) :
    run env bus s es stop =
      (fx ++ ((breakLoop s1 stop).2 ++ (finish (breakLoop s1 stop).1).1),
        (finish (breakLoop s1 stop).1).2) := by
  unfold run
  rw [h]

theorem feasible_head (env : Env) (bus : BusSchedule) (s : Sys) (e : Event)
    (es : List Event) (h : feasible env bus s (e :: es) = true) : enabled s e = true := by
  unfold feasible at h
  rw [Bool.and_eq_true] at h
  exact h.1

/-- The four schedules of one lease award, one successful fetch and one valid
manifest request in which the fetch result follows the start of the fetch all
end in the same state after the same publication. -/
theorem runLoop_lease_fetch_manifest (env : Env) (bus : BusSchedule)
    (lw : LeaseWon) (D : Deployment) (gs : List DeploymentGroup) (M1 : manifestRequest)
    (es : List Event)
    (hv : env.ValidateManifestWithDeployment M1.value.Manifest gs = none)
    (hvf : env.VerifyRequest M1.value D = none)
    (hes : es = [.leasech lw, .runch (.ok ⟨D, gs⟩), .manifestch M1] ∨
           es = [.leasech lw, .manifestch M1, .runch (.ok ⟨D, gs⟩)] ∨
           es = [.manifestch M1, .runch (.ok ⟨D, gs⟩), .leasech lw] ∨
           es = [.manifestch M1, .leasech lw, .runch (.ok ⟨D, gs⟩)]) :
    runLoop env bus Sys.init es =
      (.fetchStarted :: .respond M1.ch none ::
          publishLoop (bus 2) M1.value.Manifest D 0 [lw],
        .ok { m := { data := some ⟨D, gs⟩, requests := [], leases := [lw],
                     manifests := [M1.value.Manifest], versions := [], stoptimer := none },
              runch := false }) := by
  rcases hes with h | h | h | h <;> subst h
  · have h1 : step env (bus 0) Sys.init (.leasech lw) =
        ([.fetchStarted], .ok { m := { Sys.init.m with leases := [lw] }, runch := true }) := by
      rw [step_leasech_no_timer _ _ _ _ rfl]
      simp [emitReceivedEvents, maybeFetchData, Sys.init]
    have h2 : step env (bus.next 0) { m := { Sys.init.m with leases := [lw] }, runch := true }
        (.runch (.ok ⟨D, gs⟩)) =
        ([], .ok { m := { Sys.init.m with leases := [lw], data := some ⟨D, gs⟩ },
                   runch := false }) := by
      rw [step_runch_ok_no_timer _ _ _ _ rfl]
      simp [emitReceivedEvents, validateRequests, Sys.init]
    have h3 : step env (bus.next.next 0)
        { m := { Sys.init.m with leases := [lw], data := some ⟨D, gs⟩ }, runch := false }
        (.manifestch M1) =
        (.respond M1.ch none ::
            publishLoop (bus.next.next 0) M1.value.Manifest D 0 [lw],
          .ok { m := { Sys.init.m with leases := [lw], data := some ⟨D, gs⟩,
                                       manifests := [M1.value.Manifest] },
                runch := false }) := by
      rw [step_manifestch_no_timer _ _ _ _ rfl]
      simp [emitReceivedEvents, validateRequests, validateLoop, validateRequest, hv, hvf,
        maybeFetchData, Sys.init]
    simp only [runLoop_cons, h1, h2, h3, runLoop]
    simp [BusSchedule.next, Sys.init]
  · have h1 : step env (bus 0) Sys.init (.leasech lw) =
        ([.fetchStarted], .ok { m := { Sys.init.m with leases := [lw] }, runch := true }) := by
      rw [step_leasech_no_timer _ _ _ _ rfl]
      simp [emitReceivedEvents, maybeFetchData, Sys.init]
    have h2 : step env (bus.next 0) { m := { Sys.init.m with leases := [lw] }, runch := true }
        (.manifestch M1) =
        ([], .ok { m := { Sys.init.m with leases := [lw], requests := [M1] },
                   runch := true }) := by
      rw [step_manifestch_no_timer _ _ _ _ rfl]
      simp [emitReceivedEvents, validateRequests, maybeFetchData, Sys.init]
    have h3 : step env (bus.next.next 0)
        { m := { Sys.init.m with leases := [lw], requests := [M1] }, runch := true }
        (.runch (.ok ⟨D, gs⟩)) =
        (.respond M1.ch none ::
            publishLoop (bus.next.next 0) M1.value.Manifest D 0 [lw],
          .ok { m := { Sys.init.m with leases := [lw], data := some ⟨D, gs⟩,
                                       manifests := [M1.value.Manifest] },
                runch := false }) := by
      rw [step_runch_ok_no_timer _ _ _ _ rfl]
      simp [emitReceivedEvents, validateRequests, validateLoop, validateRequest, hv, hvf,
        Sys.init]
    simp only [runLoop_cons, h1, h2, h3, runLoop]
    simp [BusSchedule.next, Sys.init]
  · have h1 : step env (bus 0) Sys.init (.manifestch M1) =
        ([.fetchStarted], .ok { m := { Sys.init.m with requests := [M1] }, runch := true }) := by
      rw [step_manifestch_no_timer _ _ _ _ rfl]
      simp [emitReceivedEvents, validateRequests, maybeFetchData, Sys.init]
    have h2 : step env (bus.next 0) { m := { Sys.init.m with requests := [M1] }, runch := true }
        (.runch (.ok ⟨D, gs⟩)) =
        ([.respond M1.ch none],
          .ok { m := { Sys.init.m with data := some ⟨D, gs⟩,
                                       manifests := [M1.value.Manifest] },
                runch := false }) := by
      rw [step_runch_ok_no_timer _ _ _ _ rfl]
      simp [emitReceivedEvents, validateRequests, validateLoop, validateRequest, hv, hvf,
        Sys.init]
    have h3 : step env (bus.next.next 0)
        { m := { Sys.init.m with data := some ⟨D, gs⟩, manifests := [M1.value.Manifest] },
          runch := false }
        (.leasech lw) =
        (publishLoop (bus.next.next 0) M1.value.Manifest D 0 [lw],
          .ok { m := { Sys.init.m with leases := [lw], data := some ⟨D, gs⟩,
                                       manifests := [M1.value.Manifest] },
                runch := false }) := by
      rw [step_leasech_no_timer _ _ _ _ rfl]
      simp [emitReceivedEvents, maybeFetchData, Sys.init]
    simp only [runLoop_cons, h1, h2, h3, runLoop]
    simp [BusSchedule.next, Sys.init]
  · have h1 : step env (bus 0) Sys.init (.manifestch M1) =
        ([.fetchStarted], .ok { m := { Sys.init.m with requests := [M1] }, runch := true }) := by
      rw [step_manifestch_no_timer _ _ _ _ rfl]
      simp [emitReceivedEvents, validateRequests, maybeFetchData, Sys.init]
    have h2 : step env (bus.next 0) { m := { Sys.init.m with requests := [M1] }, runch := true }
        (.leasech lw) =
        ([], .ok { m := { Sys.init.m with leases := [lw], requests := [M1] },
                   runch := true }) := by
      rw [step_leasech_no_timer _ _ _ _ rfl]
      simp [emitReceivedEvents, maybeFetchData, Sys.init]
    have h3 : step env (bus.next.next 0)
        { m := { Sys.init.m with leases := [lw], requests := [M1] }, runch := true }
        (.runch (.ok ⟨D, gs⟩)) =
        (.respond M1.ch none ::
            publishLoop (bus.next.next 0) M1.value.Manifest D 0 [lw],
          .ok { m := { Sys.init.m with leases := [lw], data := some ⟨D, gs⟩,
                                       manifests := [M1.value.Manifest] },
                runch := false }) := by
      rw [step_runch_ok_no_timer _ _ _ _ rfl]
      simp [emitReceivedEvents, validateRequests, validateLoop, validateRequest, hv, hvf,
        Sys.init]
    simp only [runLoop_cons, h1, h2, h3, runLoop]
    simp [BusSchedule.next, Sys.init]

/-- C2: when the loop is left with requests r1..rn in the queue, the code after
the loop sends `ErrNotRunning` to each of them, one per request in queue order,
sends no other response and publishes nothing; with two requests queued behind
an outstanding fetch the whole run is: start the fetch, cancel, answer both
with `ErrNotRunning`, drain the fetch, announce termination once. -/
theorem finish_answers_queue_with_ErrNotRunning :
    (∀ (s : Sys) (stop : Stop),
      responses ((breakLoop s stop).2 ++ (finish (breakLoop s stop).1).1) =
        s.m.requests.map (fun req => (req.ch, some Error.ErrNotRunning)) ∧
      publications ((breakLoop s stop).2 ++ (finish (breakLoop s stop).1).1) = []) ∧
    (∀ (env : Env) (bus : BusSchedule) (r1 r2 : manifestRequest),
      (run env bus Sys.init [.manifestch r1, .manifestch r2] .ShutdownRequest).1 =
        [.fetchStarted, .cancel, .respond r1.ch (some .ErrNotRunning),
         .respond r2.ch (some .ErrNotRunning), .fetchDrained, .done]) := by
  constructor
  · intro s stop
    exact finish_effects s stop
  · intro env bus r1 r2
    simp [run, runLoop, step, validateRequests, emitReceivedEvents, reconcile,
      maybeScheduleStop, maybeFetchData, Sys.init, breakLoop, finish]

/-- C9: from the initial state, in every order of the three events lease-won
L1 (group G1), fetch-success with deployment D and groups [G1], and manifest
request M1 passing both checks, in which the fetch result comes after the event
that started the fetch, the whole run sends exactly one response, nil, to M1,
publishes exactly one notification, (L1, G1, M1's manifest, D), and runs to its
end. -/
theorem lease_fetch_manifest_in_any_order (env : Env) (bus : BusSchedule)
    (L1 : LeaseID) (G1 : DeploymentGroup) (price : Nat) (D : Deployment)
    (M1 : manifestRequest) (es : List Event) (stop : Stop)
    (hperm : es.Perm [.leasech ⟨L1, G1, price⟩, .runch (.ok ⟨D, [G1]⟩), .manifestch M1])
    (hfeas : feasible env bus Sys.init es = true)
    (hv : env.ValidateManifestWithDeployment M1.value.Manifest [G1] = none)
    (hvf : env.VerifyRequest M1.value D = none) :
    responses (run env bus Sys.init es stop).1 = [(M1.ch, none)] ∧
    publications (run env bus Sys.init es stop).1 =
      [{ LeaseID := L1, Group := G1, Manifest := M1.value.Manifest, Deployment := D }] ∧
    ∃ s1, (run env bus Sys.init es stop).2 = .ok s1 := by
  have hes : es = [.leasech ⟨L1, G1, price⟩, .runch (.ok ⟨D, [G1]⟩), .manifestch M1] ∨
      es = [.leasech ⟨L1, G1, price⟩, .manifestch M1, .runch (.ok ⟨D, [G1]⟩)] ∨
      es = [.manifestch M1, .runch (.ok ⟨D, [G1]⟩), .leasech ⟨L1, G1, price⟩] ∨
      es = [.manifestch M1, .leasech ⟨L1, G1, price⟩, .runch (.ok ⟨D, [G1]⟩)] := by
    rcases perm_three hperm with h | h | h | h | h | h
    · exact Or.inl h
    · exact Or.inr (Or.inl h)
    · subst h
      exact absurd (feasible_head env bus _ _ _ hfeas) (by simp [enabled, Sys.init])
    · subst h
      exact absurd (feasible_head env bus _ _ _ hfeas) (by simp [enabled, Sys.init])
    · exact Or.inr (Or.inr (Or.inr h))
    · exact Or.inr (Or.inr (Or.inl h))
  have hloop := runLoop_lease_fetch_manifest env bus ⟨L1, G1, price⟩ D [G1] M1 es hv hvf hes
  have hrun := run_of_runLoop_ok env bus _ _ es stop _ hloop
  have hfin := finish_effects
    { m := { data := some ⟨D, [G1]⟩, requests := [], leases := [⟨L1, G1, price⟩],
             manifests := [M1.value.Manifest], versions := [], stoptimer := none },
      runch := false } stop
  have hok := finish_ok_no_timer
    { m := { data := some ⟨D, [G1]⟩, requests := [], leases := [⟨L1, G1, price⟩],
             manifests := [M1.value.Manifest], versions := [], stoptimer := none },
      runch := false } stop rfl
  rw [hrun]
  refine ⟨?_, ?_, _, hok⟩
  · rw [responses_append, hfin.1]
    simp [responses, responses_publishLoop]
  · rw [publications_append, hfin.2]
    simp [publications, publications_publishLoop]

/-- C9 at a concrete schedule: the lease, then the request, then the fetch
result; a manifest is valid when its key is a group key, a request verifies
when its `auth` is the deployment's `body`. -/
theorem lease_fetch_manifest_in_any_order_witness :
    responses (run
        ⟨fun mf gs => if gs.any (fun g => g.key = mf.key) then none else some (.other 1),
         fun r d => if r.auth = d.body then none else some (.other 2)⟩
        (fun _ _ => none) Sys.init
        [.leasech ⟨⟨1⟩, ⟨10⟩, 0⟩, .manifestch ⟨⟨5, ⟨10⟩⟩, 100⟩, .runch (.ok ⟨⟨5, []⟩, [⟨10⟩]⟩)]
        .ShutdownRequest).1 = [(100, none)] :=
  (lease_fetch_manifest_in_any_order
    ⟨fun mf gs => if gs.any (fun g => g.key = mf.key) then none else some (.other 1),
     fun r d => if r.auth = d.body then none else some (.other 2)⟩
    (fun _ _ => none) ⟨1⟩ ⟨10⟩ 0 ⟨5, []⟩ ⟨⟨5, ⟨10⟩⟩, 100⟩
    [.leasech ⟨⟨1⟩, ⟨10⟩, 0⟩, .manifestch ⟨⟨5, ⟨10⟩⟩, 100⟩, .runch (.ok ⟨⟨5, []⟩, [⟨10⟩]⟩)]
    .ShutdownRequest (List.Perm.cons _ (List.Perm.swap _ _ _)) (by decide) (by decide)
    (by decide)).1


/-- What `emitReceivedEvents` hands to the bus, in every state. -/
theorem publications_emitReceivedEvents_eq (bus : BusAnswers) (m : manager) :
    publications (emitReceivedEvents bus m).2 =
      match m.data, m.manifests.getLast? with
      | some data, some manifest =>
        m.leases.map (fun l => { LeaseID := l.LeaseID, Group := l.Group,
                                 Manifest := manifest, Deployment := data.deployment })
      | _, _ => [] := by
  cases hd : m.data with
  | none => simp [emitReceivedEvents, hd, publications]
  | some data =>
    cases hl : m.manifests.getLast? with
    | none =>
      have : m.manifests = [] := List.getLast?_eq_none_iff.1 hl
      rw [publications_emitReceivedEvents_nil bus m (Or.inr (Or.inr this))]
    | some mf =>
      by_cases hle : m.leases = []
      · rw [publications_emitReceivedEvents_nil bus m (Or.inr (Or.inl hle))]
        simp [hle]
      · have hm : m.manifests ≠ [] := by
          intro h0
          simp [h0] at hl
        rw [publications_emitReceivedEvents bus m data hd hle hm]
        have : m.manifests.getLast hm = mf := by
          rw [List.getLast?_eq_getLast _ hm] at hl
          exact Option.some.inj hl
        simp [this]

/-- C10, as the code has it: in every state with the snapshot present, a
manifest-request event whose manifest fails validation against the snapshot's
groups is answered with that validation error, after the answers to the
requests already queued; its manifest is not appended to the accepted-manifest
list, which changes only by the first passing request already queued (so not
at all when the queue was empty); the lease list is kept; and the event then
publishes one notification per tracked lease, carrying the last accepted
manifest, so it publishes nothing exactly when the lease list or the
accepted-manifest list is empty. -/
theorem manifestch_invalid_manifest (env : Env) (bus : BusAnswers) (s : Sys)
    (data : managerChainData) (req : manifestRequest) (err : Error)
    (hd : s.m.data = some data)
    (hv : env.ValidateManifestWithDeployment req.value.Manifest data.dgroups = some err) :
    responses (step env bus s (.manifestch req)).1 =
        s.m.requests.map (fun q => (q.ch, validateRequest env data q)) ++
          [(req.ch, some err)] ∧
    ∃ s1, (step env bus s (.manifestch req)).2.state? = some s1 ∧
      s1.m.manifests = s.m.manifests ++
        ((s.m.requests.find? (fun q => (validateRequest env data q).isNone)).map
          (fun q => q.value.Manifest)).toList ∧
      (s.m.requests = [] → s1.m.manifests = s.m.manifests) ∧
      s1.m.leases = s.m.leases ∧
      publications (step env bus s (.manifestch req)).1 =
        (match s1.m.manifests.getLast? with
         | some manifest =>
           s.m.leases.map (fun l => { LeaseID := l.LeaseID, Group := l.Group,
                                      Manifest := manifest, Deployment := data.deployment })
         | none => []) ∧
      (publications (step env bus s (.manifestch req)).1 = [] ↔
        s.m.leases = [] ∨ s1.m.manifests = []) := by
  have hreq : validateRequest env data req = some err := by
    simp [validateRequest, hv]
  have hne : s.m.requests ++ [req] ≠ [] := by simp
  have hveq := validateRequests_eq env { s.m with requests := s.m.requests ++ [req] } data
    hd hne
  have hfind : (s.m.requests ++ [req]).find? (fun q => (validateRequest env data q).isNone) =
      s.m.requests.find? (fun q => (validateRequest env data q).isNone) := by
    rw [List.find?_append]
    simp [List.find?, hreq]
  simp only [hfind] at hveq
  obtain ⟨s1, h1, _, _, hl, hm, _, hr, hp⟩ := reconcile_frame true
    { s with m := (emitReceivedEvents bus
        (validateRequests env { s.m with requests := s.m.requests ++ [req] }).1).1 }
    ((validateRequests env { s.m with requests := s.m.requests ++ [req] }).2 ++
      (emitReceivedEvents bus
        (validateRequests env { s.m with requests := s.m.requests ++ [req] }).1).2)
  have hstep : step env bus s (.manifestch req) = reconcile true
    { s with m := (emitReceivedEvents bus
        (validateRequests env { s.m with requests := s.m.requests ++ [req] }).1).1 }
    ((validateRequests env { s.m with requests := s.m.requests ++ [req] }).2 ++
      (emitReceivedEvents bus
        (validateRequests env { s.m with requests := s.m.requests ++ [req] }).1).2) := rfl
  rw [← hstep] at h1 hr hp
  simp only [emitReceivedEvents_state] at hl hm
  rw [hveq] at hl hm
  simp only at hl hm
  have hpub : publications (step env bus s (.manifestch req)).1 =
      (match s1.m.manifests.getLast? with
       | some manifest =>
         s.m.leases.map (fun l => { LeaseID := l.LeaseID, Group := l.Group,
                                    Manifest := manifest, Deployment := data.deployment })
       | none => []) := by
    rw [hp, publications_append, publications_validateRequests, List.nil_append,
      publications_emitReceivedEvents_eq, hveq, hm]
    simp only [hd]
    cases (s.m.manifests ++
      ((s.m.requests.find? (fun r => (validateRequest env data r).isNone)).map
        (fun r => r.value.Manifest)).toList).getLast? <;> rfl
  refine ⟨?_, s1, h1, hm, ?_, hl, hpub, ?_⟩
  · rw [hr, responses_append, responses_emitReceivedEvents, List.append_nil, hveq]
    simp only [responses_validateLoop, List.map_append, List.map_cons, List.map_nil, hreq]
  · intro hq
    rw [hm, hq]
    simp
  · rw [hpub]
    cases hg : s1.m.manifests.getLast? with
    | none =>
      have : s1.m.manifests = [] := List.getLast?_eq_none_iff.1 hg
      simp [this]
    | some mf =>
      have : s1.m.manifests ≠ [] := by
        intro h0
        simp [h0] at hg
      simp [this]


/-- C10, witness: the request M2 of the counterexample, in the state reached
after a lease, a fetch and the accepted request M1. -/
theorem manifestch_invalid_manifest_witness :
    responses (step
        ⟨fun mf gs => if gs.any (fun g => g.key = mf.key) then none else some (.other 1),
         fun r d => if r.auth = d.body then none else some (.other 2)⟩
        (fun _ => none)
        { m := { data := some ⟨⟨5, []⟩, [⟨10⟩]⟩, requests := [],
                 leases := [⟨⟨1⟩, ⟨10⟩, 0⟩], manifests := [⟨10⟩], versions := [],
                 stoptimer := none },
          runch := false }
        (.manifestch ⟨⟨5, ⟨99⟩⟩, 101⟩)).1 = [(101, some (.other 1))] :=
  (manifestch_invalid_manifest
    ⟨fun mf gs => if gs.any (fun g => g.key = mf.key) then none else some (.other 1),
     fun r d => if r.auth = d.body then none else some (.other 2)⟩
    (fun _ => none)
    { m := { data := some ⟨⟨5, []⟩, [⟨10⟩]⟩, requests := [],
             leases := [⟨⟨1⟩, ⟨10⟩, 0⟩], manifests := [⟨10⟩], versions := [],
             stoptimer := none },
      runch := false }
    ⟨⟨5, []⟩, [⟨10⟩]⟩ ⟨⟨5, ⟨99⟩⟩, 101⟩ (.other 1) rfl (by decide)).1

/-- C10, counterexample: after lease L1, the fetch of deployment D with groups
[G1] and the accepted request M1, the snapshot is present; the request M2,
whose manifest fails validation against the only group, is answered with the
validation error and adds nothing to the accepted list, yet handling it
publishes one notification, (L1, G1, M1's manifest, D), not zero. -/
theorem manifestch_invalid_manifest_still_publishes :
    (runLoop
        ⟨fun mf gs => if gs.any (fun g => g.key = mf.key) then none else some (.other 1),
         fun r d => if r.auth = d.body then none else some (.other 2)⟩
        (fun _ _ => none) Sys.init
        [.leasech ⟨⟨1⟩, ⟨10⟩, 0⟩, .runch (.ok ⟨⟨5, []⟩, [⟨10⟩]⟩),
         .manifestch ⟨⟨5, ⟨10⟩⟩, 100⟩]).2 =
      .ok { m := { data := some ⟨⟨5, []⟩, [⟨10⟩]⟩, requests := [],
                   leases := [⟨⟨1⟩, ⟨10⟩, 0⟩], manifests := [⟨10⟩], versions := [],
                   stoptimer := none },
            runch := false } ∧
    (if ([⟨10⟩] : List DeploymentGroup).any (fun g => g.key = 99) then none
      else some (Error.other 1)) = some (Error.other 1) ∧
    step
        ⟨fun mf gs => if gs.any (fun g => g.key = mf.key) then none else some (.other 1),
         fun r d => if r.auth = d.body then none else some (.other 2)⟩
        (fun _ => none)
        { m := { data := some ⟨⟨5, []⟩, [⟨10⟩]⟩, requests := [],
                 leases := [⟨⟨1⟩, ⟨10⟩, 0⟩], manifests := [⟨10⟩], versions := [],
                 stoptimer := none },
          runch := false }
        (.manifestch ⟨⟨5, ⟨99⟩⟩, 101⟩) =
      ([.logError "invalid manifest", .respond 101 (some (.other 1)),
        .publish ⟨⟨1⟩, ⟨10⟩, ⟨10⟩, ⟨5, []⟩⟩],
       .ok { m := { data := some ⟨⟨5, []⟩, [⟨10⟩]⟩, requests := [],
                    leases := [⟨⟨1⟩, ⟨10⟩, 0⟩], manifests := [⟨10⟩], versions := [],
                    stoptimer := none },
             runch := false }) ∧
    publications (step
        ⟨fun mf gs => if gs.any (fun g => g.key = mf.key) then none else some (.other 1),
         fun r d => if r.auth = d.body then none else some (.other 2)⟩
        (fun _ => none)
        { m := { data := some ⟨⟨5, []⟩, [⟨10⟩]⟩, requests := [],
                 leases := [⟨⟨1⟩, ⟨10⟩, 0⟩], manifests := [⟨10⟩], versions := [],
                 stoptimer := none },
          runch := false }
        (.manifestch ⟨⟨5, ⟨99⟩⟩, 101⟩)).1 ≠ [] := by
  refine ⟨by decide, by decide, by decide, by decide⟩

/-- C3, witness: the request M1 handled after a lease and a fetch publishes,
and then the three are present; the lease and the fetch alone publish nothing. -/
theorem publishes_only_when_all_three_present_witness :
    (∃ s1, (step
        ⟨fun mf gs => if gs.any (fun g => g.key = mf.key) then none else some (.other 1),
         fun r d => if r.auth = d.body then none else some (.other 2)⟩
        (fun _ => none)
        { m := { data := some ⟨⟨5, []⟩, [⟨10⟩]⟩, requests := [],
                 leases := [⟨⟨1⟩, ⟨10⟩, 0⟩], manifests := [], versions := [],
                 stoptimer := none },
          runch := false }
        (.manifestch ⟨⟨5, ⟨10⟩⟩, 100⟩)).2.state? = some s1 ∧
      s1.m.data ≠ none ∧ s1.m.leases ≠ [] ∧ s1.m.manifests ≠ []) ∧
    publications (runLoop
        ⟨fun mf gs => if gs.any (fun g => g.key = mf.key) then none else some (.other 1),
         fun r d => if r.auth = d.body then none else some (.other 2)⟩
        (fun _ _ => none) Sys.init
        [.leasech ⟨⟨1⟩, ⟨10⟩, 0⟩, .runch (.ok ⟨⟨5, []⟩, [⟨10⟩]⟩)]).1 = [] :=
  ⟨(publishes_only_when_all_three_present
      ⟨fun mf gs => if gs.any (fun g => g.key = mf.key) then none else some (.other 1),
       fun r d => if r.auth = d.body then none else some (.other 2)⟩).2.1
      { m := { data := some ⟨⟨5, []⟩, [⟨10⟩]⟩, requests := [],
               leases := [⟨⟨1⟩, ⟨10⟩, 0⟩], manifests := [], versions := [],
               stoptimer := none },
        runch := false }
      (@Reachable.step _
        { m := { Sys.init.m with leases := [⟨⟨1⟩, ⟨10⟩, 0⟩] }, runch := true }
        { m := { data := some ⟨⟨5, []⟩, [⟨10⟩]⟩, requests := [],
                 leases := [⟨⟨1⟩, ⟨10⟩, 0⟩], manifests := [], versions := [],
                 stoptimer := none },
          runch := false }
        (fun _ => none) (.runch (.ok ⟨⟨5, []⟩, [⟨10⟩]⟩))
        (@Reachable.step _ Sys.init
          { m := { Sys.init.m with leases := [⟨⟨1⟩, ⟨10⟩, 0⟩] }, runch := true }
          (fun _ => none) (.leasech ⟨⟨1⟩, ⟨10⟩, 0⟩) Reachable.init
          (by decide) (by decide))
        (by decide) (by decide))
      (fun _ => none) (.manifestch ⟨⟨5, ⟨10⟩⟩, 100⟩) (by decide),
   (publishes_only_when_all_three_present
      ⟨fun mf gs => if gs.any (fun g => g.key = mf.key) then none else some (.other 1),
       fun r d => if r.auth = d.body then none else some (.other 2)⟩).2.2
      (fun _ _ => none)
      [.leasech ⟨⟨1⟩, ⟨10⟩, 0⟩, .runch (.ok ⟨⟨5, []⟩, [⟨10⟩]⟩)]
      (by
        intro k s1 h
        match k, h with
        | 0, h =>
          have : s1 = Sys.init := (Option.some.inj h).symm
          subst this
          decide
        | 1, h =>
          have : s1 = { m := { Sys.init.m with leases := [⟨⟨1⟩, ⟨10⟩, 0⟩] }, runch := true } :=
            (Option.some.inj h).symm
          subst this
          decide
        | k + 2, h =>
          simp only [List.take_succ_cons, List.take_nil] at h
          have : s1 = { m := { data := some ⟨⟨5, []⟩, [⟨10⟩]⟩, requests := [],
                               leases := [⟨⟨1⟩, ⟨10⟩, 0⟩], manifests := [], versions := [],
                               stoptimer := none },
                        runch := false } := (Option.some.inj h).symm
          subst this
          decide)⟩


/-! ## Accounting of responses -/

/-- A validation batch answers the whole queue or nothing: the channels
answered, followed by the channels still queued, are the channels queued
before. -/
theorem validateRequests_accounting (env : Env) (m : manager) :
    (responses (validateRequests env m).2).map Prod.fst ++
        (validateRequests env m).1.requests.map (fun r => r.ch) =
      m.requests.map (fun r => r.ch) := by
  cases hd : m.data with
  | none => rw [validateRequests_idle env m (Or.inl hd)]; rfl
  | some data =>
    by_cases hq : m.requests = []
    · rw [validateRequests_idle env m (Or.inr hq)]; rfl
    · rw [validateRequests_eq env m data hd hq]
      simp [responses_validateLoop]

theorem state?_inj {α : Type} {x : Exec α} {a b : α} (ha : x.state? = some a)
    (hb : x.state? = some b) : a = b :=
  Option.some.inj (ha.symm.trans hb)

/-- One case of the loop: the channels it answers, followed by the channels it
leaves queued, are the channels queued before followed by the channel of the
request it received, if any. -/
theorem step_accounting (env : Env) (bus : BusAnswers) (s s1 : Sys) (e : Event)
    (h : (step env bus s e).2.state? = some s1) :
    (responses (step env bus s e).1).map Prod.fst ++ s1.m.requests.map (fun r => r.ch) =
      s.m.requests.map (fun r => r.ch) ++ (received [e]).map (fun r => r.ch) := by
  cases e with
  | leasech ev =>
    obtain ⟨s2, h2, _, hq, _, _, _, hr, _⟩ := reconcile_frame true
      { s with m := (emitReceivedEvents bus { s.m with leases := s.m.leases ++ [ev] }).1 }
      (emitReceivedEvents bus { s.m with leases := s.m.leases ++ [ev] }).2
    have hs : s1 = s2 := state?_inj h h2
    subst hs
    have hstep : (step env bus s (.leasech ev)).1 = (reconcile true
      { s with m := (emitReceivedEvents bus { s.m with leases := s.m.leases ++ [ev] }).1 }
      (emitReceivedEvents bus { s.m with leases := s.m.leases ++ [ev] }).2).1 := rfl
    rw [hstep, hr, hq, responses_emitReceivedEvents, emitReceivedEvents_state]
    simp [received]
  | rmleasech id =>
    simp only [step] at h ⊢
    cases hrm : rmlease id s.m.leases with
    | panic => rw [hrm] at h; simp [Exec.state?] at h
    | blocked ls =>
      rw [hrm] at h
      have hs : s1 = { s with m := { s.m with leases := ls } } := (Option.some.inj h).symm
      subst hs
      simp [responses, received]
    | ok ls =>
      rw [hrm] at h
      obtain ⟨s2, h2, _, hq, _, _, _, hr, _⟩ :=
        reconcile_frame false { s with m := { s.m with leases := ls } } []
      have hs : s1 = s2 := state?_inj h h2
      subst hs
      simp only [hr, hq]
      simp [responses, received]
  | manifestch req =>
    obtain ⟨s2, h2, _, hq, _, _, _, hr, _⟩ := reconcile_frame true
      { s with m := (emitReceivedEvents bus
          (validateRequests env { s.m with requests := s.m.requests ++ [req] }).1).1 }
      ((validateRequests env { s.m with requests := s.m.requests ++ [req] }).2 ++
        (emitReceivedEvents bus
          (validateRequests env { s.m with requests := s.m.requests ++ [req] }).1).2)
    have hs : s1 = s2 := state?_inj h h2
    subst hs
    have hstep : (step env bus s (.manifestch req)).1 = (reconcile true
      { s with m := (emitReceivedEvents bus
          (validateRequests env { s.m with requests := s.m.requests ++ [req] }).1).1 }
      ((validateRequests env { s.m with requests := s.m.requests ++ [req] }).2 ++
        (emitReceivedEvents bus
          (validateRequests env { s.m with requests := s.m.requests ++ [req] }).1).2)).1 := rfl
    rw [hstep, hr, hq, responses_append, responses_emitReceivedEvents, List.append_nil,
      emitReceivedEvents_state,
      validateRequests_accounting env { s.m with requests := s.m.requests ++ [req] }]
    simp [received]
  | updatech version =>
    simp only [step] at h ⊢
    cases hd : s.m.data with
    | none =>
      rw [hd] at h
      have hs := (Option.some.inj h).symm
      subst hs
      simp [responses, received]
    | some data =>
      rw [hd] at h
      have hs := (Option.some.inj h).symm
      subst hs
      simp [responses, received]
  | runch result =>
    cases result with
    | error err =>
      have hs : s1 = { s with runch := false } := (Option.some.inj h).symm
      subst hs
      simp [step, responses, received]
    | ok data =>
      obtain ⟨s2, h2, _, hq, _, _, _, hr, _⟩ := reconcile_frame false
        { m := (emitReceivedEvents bus
            (validateRequests env { s.m with data := some data }).1).1, runch := false }
        ((validateRequests env { s.m with data := some data }).2 ++
          (emitReceivedEvents bus (validateRequests env { s.m with data := some data }).1).2)
      have hs : s1 = s2 := state?_inj h h2
      subst hs
      have hstep : (step env bus s (.runch (.ok data))).1 = (reconcile false
        { m := (emitReceivedEvents bus
            (validateRequests env { s.m with data := some data }).1).1, runch := false }
        ((validateRequests env { s.m with data := some data }).2 ++
          (emitReceivedEvents bus
            (validateRequests env { s.m with data := some data }).1).2)).1 := rfl
      rw [hstep, hr, hq, responses_append, responses_emitReceivedEvents, List.append_nil,
        emitReceivedEvents_state,
        validateRequests_accounting env { s.m with data := some data }]
      simp [received]

theorem received_cons (e : Event) (es : List Event) :
    received (e :: es) = received [e] ++ received es := by
  cases e <;> simp [received]

/-- The loop, as long as it is alive: every request received so far has been
answered once or is still queued, in the order of arrival. -/
theorem runLoop_accounting (env : Env) (es : List Event) :
    ∀ (bus : BusSchedule) (s s1 : Sys) (fx : List Effect),
      runLoop env bus s es = (fx, .ok s1) →
      (responses fx).map Prod.fst ++ s1.m.requests.map (fun r => r.ch) =
        s.m.requests.map (fun r => r.ch) ++ (received es).map (fun r => r.ch) := by
  induction es with
  | nil =>
    intro bus s s1 fx h
    simp only [runLoop, Prod.mk.injEq, Exec.ok.injEq] at h
    obtain ⟨rfl, rfl⟩ := h
    simp [responses, received]
  | cons e rest ih =>
    intro bus s s1 fx h
    rw [runLoop_cons] at h
    cases hx : (step env (bus 0) s e).2 with
    | panic => rw [hx] at h; simp at h
    | blocked a => rw [hx] at h; simp at h
    | ok a =>
      rw [hx] at h
      simp only [Prod.mk.injEq] at h
      obtain ⟨hfx, hs1⟩ := h
      have h1 := step_accounting env (bus 0) s a e (by rw [hx]; rfl)
      have h2 := ih bus.next a s1 (runLoop env bus.next a rest).1
        (by rw [← hs1])
      rw [received_cons e rest, ← hfx, responses_append, List.map_append, List.append_assoc,
        h2, ← List.append_assoc, h1, List.map_append, List.append_assoc]

/-- A run that completes has sent exactly one response per request received,
in the order of arrival (the validation batches first, the drain after the
loop for what is still queued). -/
theorem run_answers_in_arrival_order (env : Env) (bus : BusSchedule) (es : List Event)
    (stop : Stop) (s2 : Sys) (h : (run env bus Sys.init es stop).2 = .ok s2) :
    (responses (run env bus Sys.init es stop).1).map Prod.fst =
      (received es).map (fun r => r.ch) := by
  rcases hl : runLoop env bus Sys.init es with ⟨fx, x⟩
  cases x with
  | panic => simp [run, hl] at h
  | blocked a => simp [run, hl] at h
  | ok s1 =>
    have hacc := runLoop_accounting env es bus Sys.init s1 fx hl
    rw [run_of_runLoop_ok env bus _ _ es stop _ hl, responses_append,
      (finish_effects s1 stop).1, List.map_append, List.map_map]
    simpa [Sys.init, Function.comp_def] using hacc

/-- C1, at the failing input: a request is queued behind the first fetch, the
same lease is won twice, then removed.  The removal loop panics on its second
match, so the run ends there: its only effects are the start of the fetch and
the deferred announcement on `donech`, and the request, which the loop has
received, is never answered. -/
theorem queued_request_unanswered_when_removal_panics :
    received [.manifestch ⟨⟨5, ⟨10⟩⟩, 100⟩, .leasech ⟨⟨1⟩, ⟨10⟩, 0⟩,
        .leasech ⟨⟨1⟩, ⟨10⟩, 0⟩, .rmleasech ⟨1⟩] = [⟨⟨5, ⟨10⟩⟩, 100⟩] ∧
    feasible ⟨fun _ _ => none, fun _ _ => none⟩ (fun _ _ => none) Sys.init
        [.manifestch ⟨⟨5, ⟨10⟩⟩, 100⟩, .leasech ⟨⟨1⟩, ⟨10⟩, 0⟩,
         .leasech ⟨⟨1⟩, ⟨10⟩, 0⟩, .rmleasech ⟨1⟩] = true ∧
    run ⟨fun _ _ => none, fun _ _ => none⟩ (fun _ _ => none) Sys.init
        [.manifestch ⟨⟨5, ⟨10⟩⟩, 100⟩, .leasech ⟨⟨1⟩, ⟨10⟩, 0⟩,
         .leasech ⟨⟨1⟩, ⟨10⟩, 0⟩, .rmleasech ⟨1⟩] .ShutdownRequest =
      ([.fetchStarted, .done], .panic) ∧
    responses (run ⟨fun _ _ => none, fun _ _ => none⟩ (fun _ _ => none) Sys.init
        [.manifestch ⟨⟨5, ⟨10⟩⟩, 100⟩, .leasech ⟨⟨1⟩, ⟨10⟩, 0⟩,
         .leasech ⟨⟨1⟩, ⟨10⟩, 0⟩, .rmleasech ⟨1⟩] .ShutdownRequest).1 = [] := by
  refine ⟨by decide, by decide, by decide, by decide⟩

/-! ## The removal loop and the capacity of the slice -/

theorem spliceOut_spare (s : LeaseSlice) (idx : Nat) (spare : List LeaseWon)
    (hlen : s.len ≤ s.arr.length) (hidx : idx < s.arr.length) :
    spliceOut { arr := s.arr ++ spare, len := s.len } idx =
      match spliceOut s idx with
      | .ok s1 => .ok { arr := s1.arr ++ spare, len := s1.len }
      | .panic => .panic
      | .blocked s1 => .blocked { arr := s1.arr ++ spare, len := s1.len } := by
  unfold spliceOut
  by_cases h : idx + 1 ≤ s.len
  · have h1 : idx ≤ (s.arr ++ spare).length ∧ idx + 1 ≤ s.len := by
      refine ⟨?_, h⟩
      rw [List.length_append]
      omega
    have h2 : idx ≤ s.arr.length ∧ idx + 1 ≤ s.len := ⟨by omega, h⟩
    simp only [h1, h2, and_self, if_true]
    have e1 : (s.arr ++ spare).take idx = s.arr.take idx :=
      List.take_append_of_le_length (by omega)
    have e2 : (s.arr ++ spare).drop (idx + 1) = s.arr.drop (idx + 1) ++ spare :=
      List.drop_append_of_le_length (by omega)
    have e3 : (s.arr.drop (idx + 1) ++ spare).take (s.len - (idx + 1)) =
        (s.arr.drop (idx + 1)).take (s.len - (idx + 1)) :=
      List.take_append_of_le_length (by rw [List.length_drop]; omega)
    have e4 : (s.arr ++ spare).drop (s.len - 1) = s.arr.drop (s.len - 1) ++ spare :=
      List.drop_append_of_le_length (by omega)
    simp only [e1, e2, e3, e4, List.append_assoc]
  · have h1 : ¬ (idx ≤ (s.arr ++ spare).length ∧ idx + 1 ≤ s.len) := fun hc => h hc.2
    have h2 : ¬ (idx ≤ s.arr.length ∧ idx + 1 ≤ s.len) := fun hc => h hc.2
    simp only [h1, h2, if_false]

theorem spliceOut_length (s s1 : LeaseSlice) (idx : Nat) (hlen : s.len ≤ s.arr.length)
    (h : spliceOut s idx = .ok s1) :
    s1.arr.length = s.arr.length ∧ s1.len ≤ s1.arr.length := by
  unfold spliceOut at h
  split at h
  · next hc =>
    have hs := (Exec.ok.inj h).symm
    subst hs
    simp only [List.length_append, List.length_take, List.length_drop]
    omega
  · exact absurd h (by simp)

/-- The cells between the length and the capacity of `m.leases` play no part
in the removal loop: it neither reads nor writes them. -/
theorem rmleaseLoop_spare (id : LeaseID) (spare : List LeaseWon) (todo : Nat) :
    ∀ (idx : Nat) (s : LeaseSlice), s.len ≤ s.arr.length → idx + todo ≤ s.arr.length →
      rmleaseLoop id todo idx { arr := s.arr ++ spare, len := s.len } =
        match rmleaseLoop id todo idx s with
        | .ok s1 => .ok { arr := s1.arr ++ spare, len := s1.len }
        | .panic => .panic
        | .blocked s1 => .blocked { arr := s1.arr ++ spare, len := s1.len } := by
  induction todo with
  | zero => intro idx s _ _; rfl
  | succ n ih =>
    intro idx s hlen hb
    have hlt : idx < s.arr.length := by omega
    have hget : s.arr.get? idx = some (s.arr.get ⟨idx, hlt⟩) := List.get?_eq_get hlt
    have hget2 : (s.arr ++ spare).get? idx = some (s.arr.get ⟨idx, hlt⟩) := by
      rw [List.get?_eq_getElem?, List.getElem?_append_left hlt, ← List.get?_eq_getElem?, hget]
    unfold rmleaseLoop
    simp only [hget, hget2]
    by_cases hm : id = (s.arr.get ⟨idx, hlt⟩).LeaseID
    · rw [if_pos hm, if_pos hm, spliceOut_spare s idx spare hlen hlt]
      cases hsp : spliceOut s idx with
      | panic => rfl
      | blocked a => rfl
      | ok s1 =>
        obtain ⟨hl1, hl2⟩ := spliceOut_length s s1 idx hlen hsp
        exact ih (idx + 1) s1 hl2 (by omega)
    · rw [if_neg hm, if_neg hm]
      exact ih (idx + 1) s hlen (by omega)

/-- Whatever the capacity of `m.leases`, the removal loop gives what it gives
on the slice without spare cells. -/
theorem rmleaseCap_eq_rmlease (id : LeaseID) (leases spare : List LeaseWon) :
    rmleaseCap id leases spare = rmlease id leases := by
  unfold rmleaseCap rmlease
  rw [rmleaseLoop_spare id spare leases.length 0 { arr := leases, len := leases.length }
    (Nat.le_refl _) (by simp)]
  have hkeep : ∀ (todo idx : Nat) (s s1 : LeaseSlice), s.len ≤ s.arr.length →
      rmleaseLoop id todo idx s = .ok s1 → s1.len ≤ s1.arr.length := by
    intro todo
    induction todo with
    | zero =>
      intro idx s s1 hl h
      have hs := (Exec.ok.inj h).symm
      subst hs
      exact hl
    | succ n ih =>
      intro idx s s1 hl h
      unfold rmleaseLoop at h
      cases hg : s.arr.get? idx with
      | none => rw [hg] at h; simp at h
      | some lease =>
        rw [hg] at h
        simp only at h
        split at h
        · cases hsp : spliceOut s idx with
          | panic => rw [hsp] at h; simp at h
          | blocked a => rw [hsp] at h; simp at h
          | ok s2 =>
            rw [hsp] at h
            exact ih (idx + 1) s2 s1 (spliceOut_length s s2 idx hl hsp).2 h
        · exact ih (idx + 1) s s1 hl h
  have hnb : ∀ (todo idx : Nat) (s a : LeaseSlice),
      rmleaseLoop id todo idx s ≠ .blocked a := by
    intro todo
    induction todo with
    | zero => intro idx s a h; simp [rmleaseLoop] at h
    | succ n ih =>
      intro idx s a h
      unfold rmleaseLoop at h
      cases hg : s.arr.get? idx with
      | none => rw [hg] at h; simp at h
      | some lease =>
        rw [hg] at h
        simp only at h
        split at h
        · cases hsp : spliceOut s idx with
          | panic => rw [hsp] at h; simp at h
          | blocked b =>
            unfold spliceOut at hsp
            split at hsp <;> simp at hsp
          | ok s2 =>
            rw [hsp] at h
            exact ih (idx + 1) s2 a h
        · exact ih (idx + 1) s a h
  cases hr : rmleaseLoop id leases.length 0 { arr := leases, len := leases.length } with
  | panic => rfl
  | blocked a => exact absurd hr (hnb _ _ _ _)
  | ok s1 =>
    have hl := hkeep _ _ _ s1 (Nat.le_refl _) hr
    simp only
    rw [List.take_append_of_le_length hl]


/-! ## The linger timer along the loop -/

theorem maybeFetchData_m (s : Sys) : (maybeFetchData s).1.m = s.m := by
  unfold maybeFetchData
  split <;> rfl

theorem step_rmleasech_no_timer (env : Env) (bus : BusAnswers) (s : Sys) (id : LeaseID)
    (ls : List LeaseWon) (h : s.m.stoptimer = none) (hrm : rmlease id s.m.leases = .ok ls) :
    step env bus s (.rmleasech id) = ([], .ok { s with m := { s.m with leases := ls } }) := by
  simp only [step, hrm]
  refine (reconcile_no_timer _ _ _ ?_).trans ?_
  · exact h
  · rfl

/-- A case entered without a timer ends without one. -/
theorem step_keeps_no_timer (env : Env) (bus : BusAnswers) (s s1 : Sys) (e : Event)
    (h : s.m.stoptimer = none) (hs : (step env bus s e).2 = .ok s1) :
    s1.m.stoptimer = none := by
  cases e with
  | leasech ev =>
    rw [step_leasech_no_timer env bus s ev h] at hs
    have := (Exec.ok.inj hs).symm
    subst this
    rw [maybeFetchData_m]
    exact h
  | rmleasech id =>
    cases hrm : rmlease id s.m.leases with
    | panic => simp [step, hrm] at hs
    | blocked ls => simp [step, hrm] at hs
    | ok ls =>
      rw [step_rmleasech_no_timer env bus s id ls h hrm] at hs
      have := (Exec.ok.inj hs).symm
      subst this
      exact h
  | manifestch req =>
    rw [step_manifestch_no_timer env bus s req h] at hs
    have := (Exec.ok.inj hs).symm
    subst this
    rw [maybeFetchData_m]
    exact (validateRequests_frame env _).2.2.1.trans h
  | updatech version =>
    simp only [step] at hs
    cases hd : s.m.data with
    | none =>
      rw [hd] at hs
      have := (Exec.ok.inj hs).symm
      subst this
      exact h
    | some data =>
      rw [hd] at hs
      have := (Exec.ok.inj hs).symm
      subst this
      exact h
  | runch result =>
    cases result with
    | error err =>
      have := (Exec.ok.inj hs).symm
      subst this
      exact h
    | ok data =>
      rw [step_runch_ok_no_timer env bus s data h] at hs
      have := (Exec.ok.inj hs).symm
      subst this
      exact (validateRequests_frame env _).2.2.1.trans h

theorem reachable_no_timer (env : Env) (s : Sys) (h : Reachable env s) :
    s.m.stoptimer = none := by
  induction h with
  | init => rfl
  | step bus e _ _ hs ih => exact step_keeps_no_timer env bus _ _ e ih hs

/-- What `maybeScheduleStop` guarantees whenever it returns: the answer is
`true` exactly in the idle state, no timer is left in a non-idle state, and in
the idle state a timer is left exactly when there was one before the call. -/
theorem maybeScheduleStop_returns (m m1 : manager) (b : Bool)
    (h : maybeScheduleStop m = .ok (m1, b)) :
    (b = true ↔ idle m) ∧ (¬ idle m → m1.stoptimer = none) ∧
    (idle m → (m1.stoptimer ≠ none ↔ m.stoptimer ≠ none)) ∧
    m1.leases = m.leases ∧ m1.manifests = m.manifests := by
  unfold maybeScheduleStop at h
  by_cases hi : m.leases.length > 0 ∨ m.manifests.length > 0
  · have hni : ¬ idle m := by
      intro hc
      rcases hi with h1 | h1
      · rw [hc.1] at h1; simp at h1
      · rw [hc.2] at h1; simp at h1
    rw [if_pos hi] at h
    cases ht : m.stoptimer with
    | none =>
      rw [ht] at h
      simp only [Exec.ok.injEq, Prod.mk.injEq] at h
      obtain ⟨rfl, rfl⟩ := h
      simp [hni, ht]
    | some t =>
      rw [ht] at h
      cases t <;> simp [Timer.Stop, Timer.recv] at h
      all_goals
        obtain ⟨rfl, rfl⟩ := h
        simp [hni]
  · have hid : idle m := by
      unfold idle
      constructor
      · by_contra hc
        exact hi (Or.inl (List.length_pos.2 hc))
      · by_contra hc
        exact hi (Or.inr (List.length_pos.2 hc))
    rw [if_neg hi] at h
    cases ht : m.stoptimer with
    | none =>
      rw [ht] at h
      simp only [Exec.ok.injEq, Prod.mk.injEq] at h
      obtain ⟨rfl, rfl⟩ := h
      simp [hid, ht]
    | some t =>
      rw [ht] at h
      simp only [Exec.ok.injEq, Prod.mk.injEq] at h
      obtain ⟨rfl, rfl⟩ := h
      simp [hid]

/-- C12, at the failing input: in the state built by `newManager` (idle, no
timer) `maybeScheduleStop` answers `true` and leaves `stoptimer` nil, and so
it does on the first return to the idle state, after a lease has been won and
removed: no linger timer is started. -/
theorem maybeScheduleStop_first_idle_starts_no_timer :
    maybeScheduleStop Sys.init.m = .ok (Sys.init.m, true) ∧
    Sys.init.m.stoptimer = none ∧
    maybeScheduleStop
        { data := none, requests := [], leases := [], manifests := [], versions := [],
          stoptimer := none } =
      .ok ({ data := none, requests := [], leases := [], manifests := [], versions := [],
             stoptimer := none }, true) ∧
    (runLoop ⟨fun _ _ => none, fun _ _ => none⟩ (fun _ _ => none) Sys.init
        [.leasech ⟨⟨1⟩, ⟨10⟩, 0⟩, .rmleasech ⟨1⟩]).2 =
      .ok { m := { data := none, requests := [], leases := [], manifests := [],
                   versions := [], stoptimer := none },
            runch := true } := by
  refine ⟨by decide, by decide, by decide, by decide⟩

/-- C16: a version-update event has no effect on the outside world (no
response, no publication, no fetch started) and completes; in the state after
it the cached deployment, when there is one, has `Version` set to the value
received and is otherwise the same, with the same groups; an absent snapshot
stays absent; the lease list, the request queue, the accepted-manifest list,
the timer and `runch` are as before (the value is also appended to
`m.versions`). -/
theorem updatech_overwrites_version_only (env : Env) (bus : BusAnswers) (s : Sys)
    (version : Bytes) :
    (step env bus s (.updatech version)).1 = [] ∧
    responses (step env bus s (.updatech version)).1 = [] ∧
    publications (step env bus s (.updatech version)).1 = [] ∧
    fetchesStarted (step env bus s (.updatech version)).1 = 0 ∧
    ∃ s1, (step env bus s (.updatech version)).2 = .ok s1 ∧
      s1.m.data = s.m.data.map (fun d =>
        { deployment := { body := d.deployment.body, Version := version },
          dgroups := d.dgroups }) ∧
      (s.m.data = none → s1.m.data = none) ∧
      s1.m.leases = s.m.leases ∧ s1.m.requests = s.m.requests ∧
      s1.m.manifests = s.m.manifests ∧ s1.m.stoptimer = s.m.stoptimer ∧
      s1.runch = s.runch ∧ s1.m.versions = s.m.versions ++ [version] := by
  cases hd : s.m.data with
  | none => simp [step, hd, responses, publications, fetchesStarted]
  | some data => simp [step, hd, responses, publications, fetchesStarted]

/-- C16 at a concrete state: the version [7] arrives while deployment 5 with
version [1] and group 10 is cached. -/
theorem updatech_overwrites_version_only_witness :
    (step ⟨fun _ _ => none, fun _ _ => none⟩ (fun _ => none)
        { m := { data := some ⟨⟨5, [1]⟩, [⟨10⟩]⟩, requests := [],
                 leases := [⟨⟨1⟩, ⟨10⟩, 0⟩], manifests := [⟨10⟩], versions := [],
                 stoptimer := none },
          runch := false }
        (.updatech [7])).1 = [] :=
  (updatech_overwrites_version_only ⟨fun _ _ => none, fun _ _ => none⟩ (fun _ => none)
    { m := { data := some ⟨⟨5, [1]⟩, [⟨10⟩]⟩, requests := [],
             leases := [⟨⟨1⟩, ⟨10⟩, 0⟩], manifests := [⟨10⟩], versions := [],
             stoptimer := none },
      runch := false } [7]).1

/-- C19: in every state reachable from the initial state `stoptimer` is nil:
`maybeScheduleStop` called without a timer returns without one, whether the
manager is idle or not; so the case `<-stopch` is never enabled and the loop
is left only through a shutdown request. -/
theorem stoptimer_stays_nil (env : Env) (s : Sys) (h : Reachable env s) :
    s.m.stoptimer = none ∧
    (∀ m : manager, m.stoptimer = none → ∃ b, maybeScheduleStop m = .ok (m, b)) ∧
    stopEnabled s .stopch = false ∧
    (∀ stop : Stop, stopEnabled s stop = true → stop = .ShutdownRequest) := by
  have ht := reachable_no_timer env s h
  refine ⟨ht, fun m hm => maybeScheduleStop_no_timer m hm, ?_, ?_⟩
  · simp [stopEnabled, ht]
  · intro stop hstop
    cases stop with
    | ShutdownRequest => rfl
    | stopch => simp [stopEnabled, ht] at hstop

/-- C19 at a concrete reachable state: a lease won and removed again, which
brings the manager back to the idle state. -/
theorem stoptimer_stays_nil_witness :
    ({ m := { data := none, requests := [], leases := [], manifests := [],
              versions := [], stoptimer := none },
       runch := true } : Sys).m.stoptimer = none :=
  (stoptimer_stays_nil ⟨fun _ _ => none, fun _ _ => none⟩
    { m := { data := none, requests := [], leases := [], manifests := [],
             versions := [], stoptimer := none },
      runch := true }
    (@Reachable.step _
      { m := { Sys.init.m with leases := [⟨⟨1⟩, ⟨10⟩, 0⟩] }, runch := true }
      { m := { data := none, requests := [], leases := [], manifests := [],
               versions := [], stoptimer := none },
        runch := true }
      (fun _ => none) (.rmleasech ⟨1⟩)
      (@Reachable.step _ Sys.init
        { m := { Sys.init.m with leases := [⟨⟨1⟩, ⟨10⟩, 0⟩] }, runch := true }
        (fun _ => none) (.leasech ⟨⟨1⟩, ⟨10⟩, 0⟩) Reachable.init
        (by decide) (by decide))
      (by decide) (by decide))).1


/-! ## The request queue and the snapshot -/

theorem validateRequests_queueAwaitsData (env : Env) (m : manager)
    (h : m.manifests ≠ [] → m.data ≠ none) :
    queueAwaitsData (validateRequests env m).1 := by
  cases hd : m.data with
  | none =>
    rw [validateRequests_idle env m (Or.inl hd)]
    exact ⟨fun hc => absurd hd hc, h⟩
  | some data =>
    by_cases hq : m.requests = []
    · rw [validateRequests_idle env m (Or.inr hq)]
      exact ⟨fun _ => hq, h⟩
    · rw [validateRequests_eq env m data hd hq]
      exact ⟨fun _ => rfl, fun _ => by simp [hd]⟩

theorem queueAwaitsData_congr {m m1 : manager} (hd : m1.data = m.data)
    (hq : m1.requests = m.requests) (hm : m1.manifests = m.manifests)
    (h : queueAwaitsData m) : queueAwaitsData m1 := by
  unfold queueAwaitsData at *
  rw [hd, hq, hm]
  exact h

/-- Every case of the loop, whether it completes or blocks, leaves the queue
empty when the snapshot is there and leaves no accepted manifest without a
snapshot. -/
theorem step_queueAwaitsData (env : Env) (bus : BusAnswers) (s s1 : Sys) (e : Event)
    (h : queueAwaitsData s.m) (hs : (step env bus s e).2.state? = some s1) :
    queueAwaitsData s1.m := by
  cases e with
  | leasech ev =>
    obtain ⟨s2, h2, hd, hq, _, hm, _⟩ := reconcile_frame true
      { s with m := (emitReceivedEvents bus { s.m with leases := s.m.leases ++ [ev] }).1 }
      (emitReceivedEvents bus { s.m with leases := s.m.leases ++ [ev] }).2
    have := state?_inj hs h2
    subst this
    simp only [emitReceivedEvents_state] at hd hq hm
    exact queueAwaitsData_congr hd hq hm h
  | rmleasech id =>
    cases hrm : rmlease id s.m.leases with
    | panic => simp [step, hrm, Exec.state?] at hs
    | blocked ls =>
      simp only [step, hrm, Exec.state?, Option.some.injEq] at hs
      subst hs
      exact h
    | ok ls =>
      simp only [step, hrm] at hs
      obtain ⟨s2, h2, hd, hq, _, hm, _⟩ :=
        reconcile_frame false { s with m := { s.m with leases := ls } } []
      have := state?_inj hs h2
      subst this
      exact queueAwaitsData_congr hd hq hm h
  | manifestch req =>
    obtain ⟨s2, h2, hd, hq, _, hm, _⟩ := reconcile_frame true
      { s with m := (emitReceivedEvents bus
          (validateRequests env { s.m with requests := s.m.requests ++ [req] }).1).1 }
      ((validateRequests env { s.m with requests := s.m.requests ++ [req] }).2 ++
        (emitReceivedEvents bus
          (validateRequests env { s.m with requests := s.m.requests ++ [req] }).1).2)
    have := state?_inj hs h2
    subst this
    simp only [emitReceivedEvents_state] at hd hq hm
    exact queueAwaitsData_congr hd hq hm
      (validateRequests_queueAwaitsData env _ h.2)
  | updatech version =>
    simp only [step] at hs
    cases hd : s.m.data with
    | none =>
      rw [hd] at hs
      have := (Option.some.inj hs).symm
      subst this
      exact queueAwaitsData_congr hd.symm rfl rfl h
    | some data =>
      rw [hd] at hs
      have := (Option.some.inj hs).symm
      subst this
      refine ⟨fun _ => h.1 (by simp [hd]), fun _ => by simp⟩
  | runch result =>
    cases result with
    | error err =>
      have := (Option.some.inj hs).symm
      subst this
      exact h
    | ok data =>
      obtain ⟨s2, h2, hd, hq, _, hm, _⟩ := reconcile_frame false
        { m := (emitReceivedEvents bus
            (validateRequests env { s.m with data := some data }).1).1, runch := false }
        ((validateRequests env { s.m with data := some data }).2 ++
          (emitReceivedEvents bus (validateRequests env { s.m with data := some data }).1).2)
      have := state?_inj hs h2
      subst this
      simp only [emitReceivedEvents_state] at hd hq hm
      exact queueAwaitsData_congr hd hq hm
        (validateRequests_queueAwaitsData env _ (fun _ => by simp))

theorem reachable_queueAwaitsData (env : Env) (s : Sys) (h : Reachable env s) :
    queueAwaitsData s.m := by
  induction h with
  | init => exact ⟨fun hc => absurd rfl hc, fun hc => absurd rfl hc⟩
  | step bus e _ _ hs ih =>
    exact step_queueAwaitsData env bus _ _ e ih (by rw [hs]; rfl)

/-- C20: in every state the loop reaches from the initial state, a present
snapshot means an empty request queue and a non-empty accepted-manifest list
means a present snapshot; so when the code after the loop sends any
`ErrNotRunning`, the snapshot is still absent and nothing has been accepted:
the requests drained are those waiting for the first successful fetch. -/
theorem queue_empty_once_snapshot_present (env : Env) (s : Sys) (h : Reachable env s) :
    (s.m.data ≠ none → s.m.requests = []) ∧
    (s.m.manifests ≠ [] → s.m.data ≠ none) ∧
    (∀ stop : Stop,
      responses ((breakLoop s stop).2 ++ (finish (breakLoop s stop).1).1) ≠ [] →
      s.m.data = none ∧ s.m.manifests = []) := by
  have hinv := reachable_queueAwaitsData env s h
  refine ⟨hinv.1, hinv.2, ?_⟩
  intro stop hne
  rw [(finish_effects s stop).1] at hne
  have hq : s.m.requests ≠ [] := by
    intro hc
    rw [hc] at hne
    exact hne rfl
  have hd : s.m.data = none := by
    by_contra hc
    exact hq (hinv.1 hc)
  refine ⟨hd, ?_⟩
  by_contra hc
  exact hinv.2 hc hd


/-- C20 at concrete states: after a lease and a successful fetch the snapshot
is present and the queue is empty; after a single manifest request the drain
has something to send and the snapshot is absent. -/
theorem queue_empty_once_snapshot_present_witness :
    ({ data := some ⟨⟨5, []⟩, [⟨10⟩]⟩, requests := [], leases := [⟨⟨1⟩, ⟨10⟩, 0⟩],
       manifests := [], versions := [], stoptimer := none } : manager).requests = [] ∧
    (({ data := none, requests := [⟨⟨5, ⟨10⟩⟩, 100⟩], leases := [], manifests := [],
        versions := [], stoptimer := none } : manager).data = none ∧
     ({ data := none, requests := [⟨⟨5, ⟨10⟩⟩, 100⟩], leases := [], manifests := [],
        versions := [], stoptimer := none } : manager).manifests = []) :=
  ⟨(queue_empty_once_snapshot_present ⟨fun _ _ => none, fun _ _ => none⟩
      { m := { data := some ⟨⟨5, []⟩, [⟨10⟩]⟩, requests := [],
               leases := [⟨⟨1⟩, ⟨10⟩, 0⟩], manifests := [], versions := [],
               stoptimer := none },
        runch := false }
      (@Reachable.step _
        { m := { Sys.init.m with leases := [⟨⟨1⟩, ⟨10⟩, 0⟩] }, runch := true }
        { m := { data := some ⟨⟨5, []⟩, [⟨10⟩]⟩, requests := [],
                 leases := [⟨⟨1⟩, ⟨10⟩, 0⟩], manifests := [], versions := [],
                 stoptimer := none },
          runch := false }
        (fun _ => none) (.runch (.ok ⟨⟨5, []⟩, [⟨10⟩]⟩))
        (@Reachable.step _ Sys.init
          { m := { Sys.init.m with leases := [⟨⟨1⟩, ⟨10⟩, 0⟩] }, runch := true }
          (fun _ => none) (.leasech ⟨⟨1⟩, ⟨10⟩, 0⟩) Reachable.init
          (by decide) (by decide))
        (by decide) (by decide))).1 (by decide),
   (queue_empty_once_snapshot_present ⟨fun _ _ => none, fun _ _ => none⟩
      { m := { data := none, requests := [⟨⟨5, ⟨10⟩⟩, 100⟩], leases := [], manifests := [],
               versions := [], stoptimer := none },
        runch := true }
      (@Reachable.step _ Sys.init
        { m := { data := none, requests := [⟨⟨5, ⟨10⟩⟩, 100⟩], leases := [],
                 manifests := [], versions := [], stoptimer := none },
          runch := true }
        (fun _ => none) (.manifestch ⟨⟨5, ⟨10⟩⟩, 100⟩) Reachable.init
        (by decide) (by decide))).2.2 .ShutdownRequest (by decide)⟩

/-! ## Counting the fetches -/

theorem fetchesStarted_append (a b : List Effect) :
    fetchesStarted (a ++ b) = fetchesStarted a + fetchesStarted b := by
  induction a with
  | nil => simp [fetchesStarted]
  | cons x xs ih =>
    cases x
    case fetchStarted =>
      show fetchesStarted (xs ++ b) + 1 = fetchesStarted xs + 1 + fetchesStarted b
      omega
    all_goals exact ih

theorem fetchesStarted_publishLoop (bus : BusAnswers) (mf : Manifest) (d : Deployment)
    (i : Nat) (ls : List LeaseWon) : fetchesStarted (publishLoop bus mf d i ls) = 0 := by
  induction ls generalizing i with
  | nil => rfl
  | cons l rest ih =>
    unfold publishLoop
    cases bus i <;> simp [fetchesStarted, ih]

theorem fetchesStarted_emitReceivedEvents (bus : BusAnswers) (m : manager) :
    fetchesStarted (emitReceivedEvents bus m).2 = 0 := by
  unfold emitReceivedEvents
  cases m.data with
  | none => rfl
  | some data =>
    simp only
    split
    · rfl
    · cases m.manifests.getLast? with
      | none => rfl
      | some mf => exact fetchesStarted_publishLoop bus mf _ 0 _

theorem fetchesStarted_validateLoop (env : Env) (data : managerChainData)
    (rs : List manifestRequest) (acc : List Manifest) :
    fetchesStarted (validateLoop env data rs acc).2 = 0 := by
  induction rs generalizing acc with
  | nil => rfl
  | cons r rest ih =>
    unfold validateLoop
    cases validateRequest env data r <;> simp [fetchesStarted, ih]

theorem fetchesStarted_validateRequests (env : Env) (m : manager) :
    fetchesStarted (validateRequests env m).2 = 0 := by
  unfold validateRequests
  cases m.data with
  | none => rfl
  | some data =>
    simp only
    split
    · rfl
    · split <;> exact fetchesStarted_validateLoop env data _ _

/-- The tail of a case starts at most one fetch, and starts it only when it is
asked to look (`refetch`), the snapshot is absent and `runch` is nil; the
fetches started and the value of `runch` move together. -/
theorem reconcile_fetch (refetch : Bool) (s : Sys) (fx : List Effect) :
    (fetchesStarted (reconcile refetch s fx).1 = fetchesStarted fx ∨
      (fetchesStarted (reconcile refetch s fx).1 = fetchesStarted fx + 1 ∧
        refetch = true ∧ s.m.data = none ∧ s.runch = false)) ∧
    ∀ s1, (reconcile refetch s fx).2.state? = some s1 →
      fetchesStarted (reconcile refetch s fx).1 + outstanding s =
        fetchesStarted fx + outstanding s1 := by
  obtain ⟨t, b, h | h⟩ := maybeScheduleStop_cases s.m
  · cases refetch
    · have hr : reconcile false s fx = (fx, .ok { s with m := { s.m with stoptimer := t } }) := by
        unfold reconcile
        rw [h]
        rfl
      rw [hr]
      refine ⟨Or.inl rfl, ?_⟩
      intro s1 h1
      have := (Option.some.inj h1).symm
      subst this
      rfl
    · by_cases hg : s.m.data = none ∧ s.runch = false
      · have hr : reconcile true s fx =
            (fx ++ [.fetchStarted],
              .ok { m := { s.m with stoptimer := t }, runch := true }) := by
          unfold reconcile
          rw [h]
          simp [maybeFetchData, hg]
        rw [hr]
        refine ⟨Or.inr ⟨?_, rfl, hg⟩, ?_⟩
        · simp [fetchesStarted_append, fetchesStarted]
        · intro s1 h1
          have := (Option.some.inj h1).symm
          subst this
          simp [fetchesStarted_append, fetchesStarted, outstanding, hg.2]
      · have hr : reconcile true s fx =
            (fx, .ok { s with m := { s.m with stoptimer := t } }) := by
          unfold reconcile
          rw [h]
          have hg2 : ¬ (({ s with m := { s.m with stoptimer := t } } : Sys).m.data = none ∧
              ({ s with m := { s.m with stoptimer := t } } : Sys).runch = false) := hg
          simp only [if_true, maybeFetchData, if_neg hg2, List.append_nil]
        rw [hr]
        refine ⟨Or.inl rfl, ?_⟩
        intro s1 h1
        have := (Option.some.inj h1).symm
        subst this
        rfl
  · have hr : reconcile refetch s fx =
        (fx, .blocked { s with m := { s.m with stoptimer := t } }) := by
      unfold reconcile
      rw [h]
    rw [hr]
    refine ⟨Or.inl rfl, ?_⟩
    intro s1 h1
    have := (Option.some.inj h1).symm
    subst this
    rfl


/-- One case of the loop starts at most one fetch, and only from a state with
the snapshot absent and `runch` nil. -/
theorem step_starts_fetch (env : Env) (bus : BusAnswers) (s : Sys) (e : Event) :
    fetchesStarted (step env bus s e).1 = 0 ∨
      (fetchesStarted (step env bus s e).1 = 1 ∧ s.m.data = none ∧ s.runch = false) := by
  cases e with
  | leasech ev =>
    have h := (reconcile_fetch true
      { s with m := (emitReceivedEvents bus { s.m with leases := s.m.leases ++ [ev] }).1 }
      (emitReceivedEvents bus { s.m with leases := s.m.leases ++ [ev] }).2).1
    rw [fetchesStarted_emitReceivedEvents] at h
    rcases h with h | ⟨h, _, hd, hr⟩
    · exact Or.inl h
    · refine Or.inr ⟨h, ?_, hr⟩
      simpa [emitReceivedEvents_state] using hd
  | rmleasech id =>
    left
    simp only [step]
    cases rmlease id s.m.leases with
    | panic => rfl
    | blocked ls => rfl
    | ok ls =>
      have h := (reconcile_fetch false { s with m := { s.m with leases := ls } } []).1
      rcases h with h | ⟨_, h, _⟩
      · exact h
      · exact absurd h (by simp)
  | manifestch req =>
    have h := (reconcile_fetch true
      { s with m := (emitReceivedEvents bus
          (validateRequests env { s.m with requests := s.m.requests ++ [req] }).1).1 }
      ((validateRequests env { s.m with requests := s.m.requests ++ [req] }).2 ++
        (emitReceivedEvents bus
          (validateRequests env { s.m with requests := s.m.requests ++ [req] }).1).2)).1
    rw [fetchesStarted_append, fetchesStarted_emitReceivedEvents,
      fetchesStarted_validateRequests] at h
    rcases h with h | ⟨h, _, hd, hr⟩
    · exact Or.inl h
    · refine Or.inr ⟨h, ?_, hr⟩
      simp only [emitReceivedEvents_state] at hd
      rw [(validateRequests_frame env _).1] at hd
      exact hd
  | updatech version =>
    left
    simp only [step]
    cases s.m.data <;> rfl
  | runch result =>
    left
    cases result with
    | error err => rfl
    | ok data =>
      have h := (reconcile_fetch false
        { m := (emitReceivedEvents bus
            (validateRequests env { s.m with data := some data }).1).1, runch := false }
        ((validateRequests env { s.m with data := some data }).2 ++
          (emitReceivedEvents bus
            (validateRequests env { s.m with data := some data }).1).2)).1
      rw [fetchesStarted_append, fetchesStarted_emitReceivedEvents,
        fetchesStarted_validateRequests] at h
      rcases h with h | ⟨_, h, _⟩
      · exact h
      · exact absurd h (by simp)

/-- One case of the loop keeps the books: fetches started plus fetches
outstanding before, against results received plus fetches outstanding after. -/
theorem step_fetch_accounting (env : Env) (bus : BusAnswers) (s s1 : Sys) (e : Event)
    (hen : enabled s e = true) (hs : (step env bus s e).2.state? = some s1) :
    fetchesStarted (step env bus s e).1 + outstanding s =
      fetchesReceived [e] + outstanding s1 := by
  cases e with
  | leasech ev =>
    have h := (reconcile_fetch true
      { s with m := (emitReceivedEvents bus { s.m with leases := s.m.leases ++ [ev] }).1 }
      (emitReceivedEvents bus { s.m with leases := s.m.leases ++ [ev] }).2).2 s1 hs
    rw [fetchesStarted_emitReceivedEvents] at h
    simpa [fetchesReceived, outstanding] using h
  | rmleasech id =>
    cases hrm : rmlease id s.m.leases with
    | panic => simp [step, hrm, Exec.state?] at hs
    | blocked ls =>
      simp only [step, hrm, Exec.state?, Option.some.injEq] at hs
      subst hs
      simp [step, hrm, fetchesStarted, fetchesReceived, outstanding]
    | ok ls =>
      simp only [step, hrm] at hs ⊢
      have h := (reconcile_fetch false { s with m := { s.m with leases := ls } } []).2 s1 hs
      simpa [fetchesReceived, fetchesStarted, outstanding] using h
  | manifestch req =>
    have h := (reconcile_fetch true
      { s with m := (emitReceivedEvents bus
          (validateRequests env { s.m with requests := s.m.requests ++ [req] }).1).1 }
      ((validateRequests env { s.m with requests := s.m.requests ++ [req] }).2 ++
        (emitReceivedEvents bus
          (validateRequests env { s.m with requests := s.m.requests ++ [req] }).1).2)).2 s1 hs
    rw [fetchesStarted_append, fetchesStarted_emitReceivedEvents,
      fetchesStarted_validateRequests] at h
    simpa [fetchesReceived, outstanding] using h
  | updatech version =>
    simp only [step] at hs ⊢
    cases hd : s.m.data with
    | none =>
      rw [hd] at hs
      have := (Option.some.inj hs).symm
      subst this
      simp [fetchesStarted, fetchesReceived, outstanding]
    | some data =>
      rw [hd] at hs
      have := (Option.some.inj hs).symm
      subst this
      simp [fetchesStarted, fetchesReceived, outstanding]
  | runch result =>
    have hr : s.runch = true := hen
    cases result with
    | error err =>
      have := (Option.some.inj hs).symm
      subst this
      simp [step, fetchesStarted, fetchesReceived, outstanding, hr]
    | ok data =>
      have h := (reconcile_fetch false
        { m := (emitReceivedEvents bus
            (validateRequests env { s.m with data := some data }).1).1, runch := false }
        ((validateRequests env { s.m with data := some data }).2 ++
          (emitReceivedEvents bus
            (validateRequests env { s.m with data := some data }).1).2)).2 s1 hs
      rw [fetchesStarted_append, fetchesStarted_emitReceivedEvents,
        fetchesStarted_validateRequests] at h
      have h2 : fetchesStarted (step env bus s (.runch (.ok data))).1 = outstanding s1 := by
        simpa [outstanding] using h
      rw [h2]
      simp [fetchesReceived, outstanding, hr]
      omega

theorem fetchesReceived_cons (e : Event) (es : List Event) :
    fetchesReceived (e :: es) = fetchesReceived [e] + fetchesReceived es := by
  cases e with
  | runch result =>
    show fetchesReceived es + 1 = 0 + 1 + fetchesReceived es
    omega
  | _ => simp [fetchesReceived]

/-- Along a feasible run, the fetches started are the results received plus
what `runch` holds. -/
theorem runLoop_fetch_accounting (env : Env) (es : List Event) :
    ∀ (bus : BusSchedule) (s s1 : Sys) (fx : List Effect),
      feasible env bus s es = true → runLoop env bus s es = (fx, .ok s1) →
      fetchesStarted fx + outstanding s = fetchesReceived es + outstanding s1 := by
  induction es with
  | nil =>
    intro bus s s1 fx _ h
    simp only [runLoop, Prod.mk.injEq, Exec.ok.injEq] at h
    obtain ⟨rfl, rfl⟩ := h
    simp [fetchesStarted, fetchesReceived]
  | cons e rest ih =>
    intro bus s s1 fx hf h
    rw [runLoop_cons] at h
    unfold feasible at hf
    rw [Bool.and_eq_true] at hf
    cases hx : (step env (bus 0) s e).2 with
    | panic => rw [hx] at h; simp at h
    | blocked a => rw [hx] at h; simp at h
    | ok a =>
      rw [hx] at h hf
      simp only [Prod.mk.injEq] at h
      obtain ⟨hfx, hs1⟩ := h
      have h1 := step_fetch_accounting env (bus 0) s a e hf.1 (by rw [hx]; rfl)
      have h2 := ih bus.next a s1 (runLoop env bus.next a rest).1 hf.2 (by rw [← hs1])
      rw [← hfx, fetchesStarted_append, fetchesReceived_cons e rest]
      omega


/-- C14: along every feasible run from the initial state, the fetches started
and not yet received from `runch` number what `runch` records, nought or one;
one case of the loop starts at most one fetch, and only from a state with the
snapshot absent and `runch` nil; `maybeFetchData` starts a fetch exactly under
that condition and otherwise returns `runch` as it is. -/
theorem at_most_one_fetch_outstanding (env : Env) :
    (∀ (bus : BusSchedule) (es : List Event) (fx : List Effect) (s1 : Sys),
      feasible env bus Sys.init es = true →
      runLoop env bus Sys.init es = (fx, .ok s1) →
      fetchesReceived es ≤ fetchesStarted fx ∧
      fetchesStarted fx - fetchesReceived es = outstanding s1 ∧
      fetchesStarted fx - fetchesReceived es ≤ 1) ∧
    (∀ (bus : BusAnswers) (s : Sys) (e : Event),
      fetchesStarted (step env bus s e).1 ≤ 1 ∧
      (fetchesStarted (step env bus s e).1 = 1 → s.m.data = none ∧ s.runch = false)) ∧
    (∀ s : Sys,
      maybeFetchData s =
        if s.m.data = none ∧ s.runch = false then ({ s with runch := true }, [.fetchStarted])
        else (s, [])) := by
  refine ⟨?_, ?_, fun s => rfl⟩
  · intro bus es fx s1 hf hr
    have h := runLoop_fetch_accounting env es bus Sys.init s1 fx hf hr
    have h0 : outstanding Sys.init = 0 := rfl
    have h1 : outstanding s1 ≤ 1 := by
      unfold outstanding
      split <;> omega
    omega
  · intro bus s e
    rcases step_starts_fetch env bus s e with h | ⟨h, hd, hr⟩
    · exact ⟨by omega, fun hc => by omega⟩
    · exact ⟨by omega, fun _ => ⟨hd, hr⟩⟩

/-- C14 at a concrete run: a lease starts the first fetch, a request arrives,
the fetch fails, a second lease starts the second fetch: two started, one
received, one outstanding. -/
theorem at_most_one_fetch_outstanding_witness :
    fetchesReceived [.leasech ⟨⟨1⟩, ⟨10⟩, 0⟩, .manifestch ⟨⟨5, ⟨10⟩⟩, 100⟩,
        .runch (.error (.other 3)), .leasech ⟨⟨2⟩, ⟨10⟩, 0⟩] ≤
      fetchesStarted [.fetchStarted, .logError "error fetching data", .fetchStarted] ∧
    fetchesStarted [.fetchStarted, .logError "error fetching data", .fetchStarted] -
      fetchesReceived [.leasech ⟨⟨1⟩, ⟨10⟩, 0⟩, .manifestch ⟨⟨5, ⟨10⟩⟩, 100⟩,
        .runch (.error (.other 3)), .leasech ⟨⟨2⟩, ⟨10⟩, 0⟩] =
      outstanding
        { m := { data := none, requests := [⟨⟨5, ⟨10⟩⟩, 100⟩],
                 leases := [⟨⟨1⟩, ⟨10⟩, 0⟩, ⟨⟨2⟩, ⟨10⟩, 0⟩], manifests := [],
                 versions := [], stoptimer := none },
          runch := true } ∧
    fetchesStarted [.fetchStarted, .logError "error fetching data", .fetchStarted] -
      fetchesReceived [.leasech ⟨⟨1⟩, ⟨10⟩, 0⟩, .manifestch ⟨⟨5, ⟨10⟩⟩, 100⟩,
        .runch (.error (.other 3)), .leasech ⟨⟨2⟩, ⟨10⟩, 0⟩] ≤ 1 :=
  (at_most_one_fetch_outstanding ⟨fun _ _ => none, fun _ _ => none⟩).1 (fun _ _ => none)
    [.leasech ⟨⟨1⟩, ⟨10⟩, 0⟩, .manifestch ⟨⟨5, ⟨10⟩⟩, 100⟩,
      .runch (.error (.other 3)), .leasech ⟨⟨2⟩, ⟨10⟩, 0⟩]
    [.fetchStarted, .logError "error fetching data", .fetchStarted]
    { m := { data := none, requests := [⟨⟨5, ⟨10⟩⟩, 100⟩],
             leases := [⟨⟨1⟩, ⟨10⟩, 0⟩, ⟨⟨2⟩, ⟨10⟩, 0⟩], manifests := [],
             versions := [], stoptimer := none },
      runch := true }
    (by decide) (by decide)

/-! ## Retrying the fetch -/

theorem maybeFetchData_runch_data (s : Sys) (h : s.runch = true → s.m.data = none) :
    (maybeFetchData s).1.runch = true → (maybeFetchData s).1.m.data = none := by
  unfold maybeFetchData
  by_cases hg : s.m.data = none ∧ s.runch = false
  · rw [if_pos hg]
    intro _
    exact hg.1
  · rw [if_neg hg]
    exact h

/-- While a fetch is outstanding the snapshot is absent. -/
theorem reachable_runch_data (env : Env) (s : Sys) (h : Reachable env s) :
    s.runch = true → s.m.data = none := by
  induction h with
  | init => intro hc; exact absurd hc (by decide)
  | @step s s1 bus e hreach _ hs ih =>
    have ht := reachable_no_timer env s hreach
    cases e with
    | leasech ev =>
      rw [step_leasech_no_timer env bus s ev ht] at hs
      have := (Exec.ok.inj hs).symm
      subst this
      exact maybeFetchData_runch_data _ ih
    | rmleasech id =>
      cases hrm : rmlease id s.m.leases with
      | panic => simp [step, hrm] at hs
      | blocked ls => simp [step, hrm] at hs
      | ok ls =>
        rw [step_rmleasech_no_timer env bus s id ls ht hrm] at hs
        have := (Exec.ok.inj hs).symm
        subst this
        exact ih
    | manifestch req =>
      rw [step_manifestch_no_timer env bus s req ht] at hs
      have := (Exec.ok.inj hs).symm
      subst this
      apply maybeFetchData_runch_data
      intro hr
      exact (validateRequests_frame env _).1.trans (ih hr)
    | updatech version =>
      simp only [step] at hs
      cases hd : s.m.data with
      | none =>
        rw [hd] at hs
        have := (Exec.ok.inj hs).symm
        subst this
        intro _
        rfl
      | some data =>
        rw [hd] at hs
        have := (Exec.ok.inj hs).symm
        subst this
        intro hr
        have := ih hr
        rw [hd] at this
        exact absurd this (by simp)
    | runch result =>
      cases result with
      | error err =>
        have := (Exec.ok.inj hs).symm
        subst this
        intro hc
        exact absurd hc (by simp)
      | ok data =>
        rw [step_runch_ok_no_timer env bus s data ht] at hs
        have := (Exec.ok.inj hs).symm
        subst this
        intro hc
        exact absurd hc (by simp)


/-- C15, as the code has it: in every state the loop reaches, a fetch failure
leaves the snapshot absent and `runch` nil and starts nothing; and from a state
with the snapshot absent and no fetch outstanding, a lease-won event and a
manifest-request event each start exactly one fetch, while a lease-removal
event starts none and leaves `runch` nil. -/
theorem fetch_retried_on_lease_and_manifest (env : Env) (s : Sys) (h : Reachable env s) :
    (s.runch = true → ∀ (bus : BusAnswers) (err : Error),
      fetchesStarted (step env bus s (.runch (.error err))).1 = 0 ∧
      ∃ s1, (step env bus s (.runch (.error err))).2 = .ok s1 ∧
        s1.m.data = none ∧ s1.runch = false) ∧
    (s.m.data = none → s.runch = false →
      (∀ (bus : BusAnswers) (ev : LeaseWon),
        fetchesStarted (step env bus s (.leasech ev)).1 = 1 ∧
        ∃ s1, (step env bus s (.leasech ev)).2 = .ok s1 ∧
          s1.runch = true ∧ s1.m.data = none) ∧
      (∀ (bus : BusAnswers) (req : manifestRequest),
        fetchesStarted (step env bus s (.manifestch req)).1 = 1 ∧
        ∃ s1, (step env bus s (.manifestch req)).2 = .ok s1 ∧
          s1.runch = true ∧ s1.m.data = none) ∧
      (∀ (bus : BusAnswers) (id : LeaseID),
        fetchesStarted (step env bus s (.rmleasech id)).1 = 0 ∧
        ∀ s1, (step env bus s (.rmleasech id)).2 = .ok s1 →
          s1.runch = false ∧ s1.m.data = none)) := by
  have ht := reachable_no_timer env s h
  have hrd := reachable_runch_data env s h
  refine ⟨?_, ?_⟩
  · intro hr bus err
    exact ⟨rfl, _, rfl, hrd hr, rfl⟩
  · intro hd hr
    refine ⟨?_, ?_, ?_⟩
    · intro bus ev
      rw [step_leasech_no_timer env bus s ev ht]
      have hg : ({ s with m := { s.m with leases := s.m.leases ++ [ev] } } : Sys).m.data = none ∧
          ({ s with m := { s.m with leases := s.m.leases ++ [ev] } } : Sys).runch = false :=
        ⟨hd, hr⟩
      simp only [maybeFetchData, if_pos hg, fetchesStarted_append,
        fetchesStarted_emitReceivedEvents]
      exact ⟨rfl, _, rfl, rfl, hd⟩
    · intro bus req
      rw [step_manifestch_no_timer env bus s req ht]
      have hvd := (validateRequests_frame env
        { s.m with requests := s.m.requests ++ [req] }).1
      have hg : ({ s with m := (validateRequests env
            { s.m with requests := s.m.requests ++ [req] }).1 } : Sys).m.data = none ∧
          ({ s with m := (validateRequests env
            { s.m with requests := s.m.requests ++ [req] }).1 } : Sys).runch = false :=
        ⟨hvd.trans hd, hr⟩
      simp only [maybeFetchData, if_pos hg, fetchesStarted_append,
        fetchesStarted_emitReceivedEvents, fetchesStarted_validateRequests]
      exact ⟨rfl, _, rfl, rfl, hvd.trans hd⟩
    · intro bus id
      cases hrm : rmlease id s.m.leases with
      | panic => simp [step, hrm, fetchesStarted]
      | blocked ls => simp [step, hrm, fetchesStarted]
      | ok ls =>
        rw [step_rmleasech_no_timer env bus s id ls ht hrm]
        refine ⟨rfl, ?_⟩
        intro s1 hs1
        have := (Exec.ok.inj hs1).symm
        subst this
        exact ⟨hr, hd⟩

/-- C15, witness: after a lease and a failed fetch the snapshot is absent and
no fetch is outstanding; the next lease starts one fetch. -/
theorem fetch_retried_on_lease_and_manifest_witness :
    fetchesStarted (step ⟨fun _ _ => none, fun _ _ => none⟩ (fun _ => none)
        { m := { data := none, requests := [], leases := [⟨⟨1⟩, ⟨10⟩, 0⟩],
                 manifests := [], versions := [], stoptimer := none },
          runch := false }
        (.leasech ⟨⟨2⟩, ⟨10⟩, 0⟩)).1 = 1 :=
  (((fetch_retried_on_lease_and_manifest ⟨fun _ _ => none, fun _ _ => none⟩
      { m := { data := none, requests := [], leases := [⟨⟨1⟩, ⟨10⟩, 0⟩],
               manifests := [], versions := [], stoptimer := none },
        runch := false }
      (@Reachable.step _
        { m := { Sys.init.m with leases := [⟨⟨1⟩, ⟨10⟩, 0⟩] }, runch := true }
        { m := { data := none, requests := [], leases := [⟨⟨1⟩, ⟨10⟩, 0⟩],
                 manifests := [], versions := [], stoptimer := none },
          runch := false }
        (fun _ => none) (.runch (.error (.other 3)))
        (@Reachable.step _ Sys.init
          { m := { Sys.init.m with leases := [⟨⟨1⟩, ⟨10⟩, 0⟩] }, runch := true }
          (fun _ => none) (.leasech ⟨⟨1⟩, ⟨10⟩, 0⟩) Reachable.init
          (by decide) (by decide))
        (by decide) (by decide))).2 rfl rfl).1 (fun _ => none) ⟨⟨2⟩, ⟨10⟩, 0⟩).1

/-- C15, counterexample: after a lease and a failed fetch the snapshot is
absent and no fetch is outstanding; handling the removal of that lease starts
no fetch and leaves `runch` nil. -/
theorem rmleasech_starts_no_fetch :
    (runLoop ⟨fun _ _ => none, fun _ _ => none⟩ (fun _ _ => none) Sys.init
        [.leasech ⟨⟨1⟩, ⟨10⟩, 0⟩, .runch (.error (.other 3))]).2 =
      .ok { m := { data := none, requests := [], leases := [⟨⟨1⟩, ⟨10⟩, 0⟩],
                   manifests := [], versions := [], stoptimer := none },
            runch := false } ∧
    step ⟨fun _ _ => none, fun _ _ => none⟩ (fun _ => none)
        { m := { data := none, requests := [], leases := [⟨⟨1⟩, ⟨10⟩, 0⟩],
                 manifests := [], versions := [], stoptimer := none },
          runch := false }
        (.rmleasech ⟨1⟩) =
      ([], .ok { m := { data := none, requests := [], leases := [],
                        manifests := [], versions := [], stoptimer := none },
                 runch := false }) ∧
    fetchesStarted (step ⟨fun _ _ => none, fun _ _ => none⟩ (fun _ => none)
        { m := { data := none, requests := [], leases := [⟨⟨1⟩, ⟨10⟩, 0⟩],
                 manifests := [], versions := [], stoptimer := none },
          runch := false }
        (.rmleasech ⟨1⟩)).1 ≠ 1 := by
  refine ⟨by decide, by decide, by decide⟩


/-! ## Which cases publish -/

theorem emit_tail_publications (bus : BusAnswers) (refetch r : Bool) (m : manager)
    (pre : List Effect) (hpre : publications pre = []) :
    ∃ s1, (reconcile refetch { m := (emitReceivedEvents bus m).1, runch := r }
          (pre ++ (emitReceivedEvents bus m).2)).2.state? = some s1 ∧
      s1.m.data = m.data ∧ s1.m.leases = m.leases ∧ s1.m.manifests = m.manifests ∧
      publications (reconcile refetch { m := (emitReceivedEvents bus m).1, runch := r }
          (pre ++ (emitReceivedEvents bus m).2)).1 =
        match s1.m.data, s1.m.manifests.getLast? with
        | some data, some manifest =>
          s1.m.leases.map (fun l => { LeaseID := l.LeaseID, Group := l.Group,
                                      Manifest := manifest, Deployment := data.deployment })
        | _, _ => [] := by
  obtain ⟨s1, h1, hd, _, hl, hm, _, _, hp⟩ := reconcile_frame refetch
    { m := (emitReceivedEvents bus m).1, runch := r } (pre ++ (emitReceivedEvents bus m).2)
  simp only [emitReceivedEvents_state] at hd hl hm
  refine ⟨s1, h1, hd, hl, hm, ?_⟩
  rw [hp, publications_append, hpre, List.nil_append, publications_emitReceivedEvents_eq,
    hd, hl, hm]

theorem length_publications_of_canEmit (m : manager) (h : canEmit m) :
    (match m.data, m.manifests.getLast? with
      | some data, some manifest =>
        m.leases.map (fun (l : LeaseWon) =>
          ManifestReceived.mk l.LeaseID l.Group manifest data.deployment)
      | _, _ => []).length = m.leases.length := by
  obtain ⟨hd, _, hm⟩ := h
  cases hdat : m.data with
  | none => exact absurd hdat hd
  | some data =>
    rw [List.getLast?_eq_getLast _ hm]
    simp

/-- C11, as the code has it: a lease-won, a manifest-request and a
fetch-success event publish, after their state change, one notification per
tracked lease with the last accepted manifest and the cached deployment, so
exactly as many as there are leases when the snapshot is present and both lists
are non-empty; a lease-removal, a version-update and a fetch-failure event
publish nothing, whatever the state. -/
theorem publishes_after_lease_manifest_and_fetch (env : Env) (bus : BusAnswers) (s : Sys) :
    (∀ e : Event, reemits e = true →
      ∃ s1, (step env bus s e).2.state? = some s1 ∧
        publications (step env bus s e).1 =
          (match s1.m.data, s1.m.manifests.getLast? with
           | some data, some manifest =>
             s1.m.leases.map (fun l => { LeaseID := l.LeaseID, Group := l.Group,
                                         Manifest := manifest,
                                         Deployment := data.deployment })
           | _, _ => []) ∧
        (s1.m.data ≠ none ∧ s1.m.leases ≠ [] ∧ s1.m.manifests ≠ [] →
          (publications (step env bus s e).1).length = s1.m.leases.length)) ∧
    (∀ e : Event, reemits e = false → publications (step env bus s e).1 = []) := by
  constructor
  · intro e he
    have key : ∀ (refetch r : Bool) (m : manager) (pre : List Effect),
        publications pre = [] →
        ∃ s1, (reconcile refetch { m := (emitReceivedEvents bus m).1, runch := r }
              (pre ++ (emitReceivedEvents bus m).2)).2.state? = some s1 ∧
          publications (reconcile refetch { m := (emitReceivedEvents bus m).1, runch := r }
              (pre ++ (emitReceivedEvents bus m).2)).1 =
            (match s1.m.data, s1.m.manifests.getLast? with
             | some data, some manifest =>
               s1.m.leases.map (fun l => { LeaseID := l.LeaseID, Group := l.Group,
                                           Manifest := manifest,
                                           Deployment := data.deployment })
             | _, _ => []) ∧
          (s1.m.data ≠ none ∧ s1.m.leases ≠ [] ∧ s1.m.manifests ≠ [] →
            (publications (reconcile refetch
              { m := (emitReceivedEvents bus m).1, runch := r }
              (pre ++ (emitReceivedEvents bus m).2)).1).length = s1.m.leases.length) := by
      intro refetch r m pre hpre
      obtain ⟨s1, h1, _, _, _, hp⟩ := emit_tail_publications bus refetch r m pre hpre
      refine ⟨s1, h1, hp, ?_⟩
      intro hc
      rw [hp]
      exact length_publications_of_canEmit s1.m hc
    cases e with
    | leasech ev => exact key true s.runch _ [] rfl
    | rmleasech id => simp [reemits] at he
    | manifestch req => exact key true s.runch _ _ (publications_validateRequests env _)
    | updatech version => simp [reemits] at he
    | runch result =>
      cases result with
      | error err => simp [reemits] at he
      | ok data => exact key false false _ _ (publications_validateRequests env _)
  · intro e he
    cases e with
    | leasech ev => simp [reemits] at he
    | rmleasech id =>
      simp only [step]
      cases rmlease id s.m.leases with
      | panic => rfl
      | blocked ls => rfl
      | ok ls =>
        obtain ⟨_, _, _, _, _, _, _, _, hp⟩ :=
          reconcile_frame false { s with m := { s.m with leases := ls } } []
        rw [hp]
        rfl
    | manifestch req => simp [reemits] at he
    | updatech version =>
      simp only [step]
      cases s.m.data <;> rfl
    | runch result =>
      cases result with
      | error err => rfl
      | ok data => simp [reemits] at he

/-- C11, witness: a second lease won with the snapshot present and a manifest
accepted: two leases are tracked afterwards and two notifications published. -/
theorem publishes_after_lease_manifest_and_fetch_witness :
    ∃ s1, (step ⟨fun _ _ => none, fun _ _ => none⟩ (fun _ => none)
        { m := { data := some ⟨⟨5, []⟩, [⟨10⟩]⟩, requests := [],
                 leases := [⟨⟨1⟩, ⟨10⟩, 0⟩], manifests := [⟨10⟩], versions := [],
                 stoptimer := none },
          runch := false }
        (.leasech ⟨⟨2⟩, ⟨10⟩, 0⟩)).2.state? = some s1 ∧
      publications (step ⟨fun _ _ => none, fun _ _ => none⟩ (fun _ => none)
        { m := { data := some ⟨⟨5, []⟩, [⟨10⟩]⟩, requests := [],
                 leases := [⟨⟨1⟩, ⟨10⟩, 0⟩], manifests := [⟨10⟩], versions := [],
                 stoptimer := none },
          runch := false }
        (.leasech ⟨⟨2⟩, ⟨10⟩, 0⟩)).1 =
        (match s1.m.data, s1.m.manifests.getLast? with
         | some data, some manifest =>
           s1.m.leases.map (fun l => { LeaseID := l.LeaseID, Group := l.Group,
                                       Manifest := manifest,
                                       Deployment := data.deployment })
         | _, _ => []) ∧
      (s1.m.data ≠ none ∧ s1.m.leases ≠ [] ∧ s1.m.manifests ≠ [] →
        (publications (step ⟨fun _ _ => none, fun _ _ => none⟩ (fun _ => none)
          { m := { data := some ⟨⟨5, []⟩, [⟨10⟩]⟩, requests := [],
                   leases := [⟨⟨1⟩, ⟨10⟩, 0⟩], manifests := [⟨10⟩], versions := [],
                   stoptimer := none },
            runch := false }
          (.leasech ⟨⟨2⟩, ⟨10⟩, 0⟩)).1).length = s1.m.leases.length) :=
  (publishes_after_lease_manifest_and_fetch ⟨fun _ _ => none, fun _ _ => none⟩
    (fun _ => none)
    { m := { data := some ⟨⟨5, []⟩, [⟨10⟩]⟩, requests := [],
             leases := [⟨⟨1⟩, ⟨10⟩, 0⟩], manifests := [⟨10⟩], versions := [],
             stoptimer := none },
      runch := false }).1 (.leasech ⟨⟨2⟩, ⟨10⟩, 0⟩) rfl

/-- C11, counterexample: with the snapshot present, the leases 1 and 2 tracked
and a manifest accepted, a version update leaves all three in place and
publishes nothing; so does the removal of lease 2, after which lease 1 is still
tracked. -/
theorem updatech_and_rmleasech_publish_nothing :
    step ⟨fun _ _ => none, fun _ _ => none⟩ (fun _ => none)
        { m := { data := some ⟨⟨5, []⟩, [⟨10⟩]⟩, requests := [],
                 leases := [⟨⟨1⟩, ⟨10⟩, 0⟩, ⟨⟨2⟩, ⟨10⟩, 0⟩], manifests := [⟨10⟩],
                 versions := [], stoptimer := none },
          runch := false }
        (.updatech [7]) =
      ([], .ok { m := { data := some ⟨⟨5, [7]⟩, [⟨10⟩]⟩, requests := [],
                        leases := [⟨⟨1⟩, ⟨10⟩, 0⟩, ⟨⟨2⟩, ⟨10⟩, 0⟩], manifests := [⟨10⟩],
                        versions := [[7]], stoptimer := none },
                 runch := false }) ∧
    step ⟨fun _ _ => none, fun _ _ => none⟩ (fun _ => none)
        { m := { data := some ⟨⟨5, []⟩, [⟨10⟩]⟩, requests := [],
                 leases := [⟨⟨1⟩, ⟨10⟩, 0⟩, ⟨⟨2⟩, ⟨10⟩, 0⟩], manifests := [⟨10⟩],
                 versions := [], stoptimer := none },
          runch := false }
        (.rmleasech ⟨2⟩) =
      ([], .ok { m := { data := some ⟨⟨5, []⟩, [⟨10⟩]⟩, requests := [],
                        leases := [⟨⟨1⟩, ⟨10⟩, 0⟩], manifests := [⟨10⟩],
                        versions := [], stoptimer := none },
                 runch := false }) ∧
    (publications (step ⟨fun _ _ => none, fun _ _ => none⟩ (fun _ => none)
        { m := { data := some ⟨⟨5, []⟩, [⟨10⟩]⟩, requests := [],
                 leases := [⟨⟨1⟩, ⟨10⟩, 0⟩, ⟨⟨2⟩, ⟨10⟩, 0⟩], manifests := [⟨10⟩],
                 versions := [], stoptimer := none },
          runch := false }
        (.updatech [7])).1).length ≠ 2 ∧
    (publications (step ⟨fun _ _ => none, fun _ _ => none⟩ (fun _ => none)
        { m := { data := some ⟨⟨5, []⟩, [⟨10⟩]⟩, requests := [],
                 leases := [⟨⟨1⟩, ⟨10⟩, 0⟩, ⟨⟨2⟩, ⟨10⟩, 0⟩], manifests := [⟨10⟩],
                 versions := [], stoptimer := none },
          runch := false }
        (.rmleasech ⟨2⟩)).1).length ≠ 1 := by
  refine ⟨by decide, by decide, by decide, by decide⟩


/-! ## The removal loop on a list without duplicates -/

/-- The removal loop on an array `done ++ pre ++ x :: post` whose only cell
with the identifier is `x`, started behind `done`: it walks over `pre`, splices
`x` out, walks over what was `post` (moved one place down) and over the stale
last cell, and stops with the length reduced by one. -/
theorem rmleaseLoop_single_match (id : LeaseID) (x : LeaseWon) (post : List LeaseWon)
    (hx : x.LeaseID = id) (hpost : ∀ l ∈ post, l.LeaseID ≠ id) (pre : List LeaseWon) :
    ∀ done : List LeaseWon, (∀ l ∈ done, l.LeaseID ≠ id) → (∀ l ∈ pre, l.LeaseID ≠ id) →
      rmleaseLoop id (pre.length + (post.length + 1)) done.length
          { arr := done ++ (pre ++ x :: post),
            len := done.length + pre.length + post.length + 1 } =
        .ok { arr := done ++ (pre ++ (post ++ (x :: post).drop post.length)),
              len := done.length + pre.length + post.length } := by
  induction pre with
  | nil =>
    intro done hdone _
    have hget : (done ++ ([] ++ x :: post)).get? done.length = some x := by
      rw [List.get?_eq_getElem?, List.getElem?_append_right (Nat.le_refl _)]
      simp
    unfold rmleaseLoop
    simp only [hget, List.length_nil, Nat.add_zero]
    rw [if_pos hx.symm]
    have hsp : spliceOut { arr := done ++ ([] ++ x :: post),
                           len := done.length + post.length + 1 } done.length =
        .ok { arr := done ++ ([] ++ (post ++ (x :: post).drop post.length)),
              len := done.length + post.length } := by
      unfold spliceOut
      have hc : done.length ≤ (done ++ ([] ++ x :: post)).length ∧
          done.length + 1 ≤ done.length + post.length + 1 := by
        constructor
        · simp
        · omega
      simp only [if_pos hc]
      have e1 : (done ++ ([] ++ x :: post)).take done.length = done := by
        simp
      have e2 : (done ++ ([] ++ x :: post)).drop (done.length + 1) = post := by
        rw [List.nil_append, List.drop_append]
        rfl
      have e3 : done.length + post.length + 1 - (done.length + 1) = post.length := by omega
      have e4 : (done ++ ([] ++ x :: post)).drop (done.length + post.length + 1 - 1) =
          (x :: post).drop post.length := by
        rw [Nat.add_sub_cancel, List.nil_append, List.drop_append]
      rw [e1, e2, e3, e4, List.take_length]
      simp
    rw [hsp]
    simp only
    cases post with
    | nil => rfl
    | cons p ps =>
      apply rmleaseLoop_no_match
      · simp
        omega
      · intro l hl
        simp only [List.nil_append, List.mem_append] at hl
        rcases hl with hl | hl | hl
        · exact hdone l hl
        · exact hpost l hl
        · rw [List.drop_length_cons (List.cons_ne_nil p ps)] at hl
          rw [List.mem_singleton] at hl
          rw [hl]
          exact hpost _ (List.getLast_mem _)
  | cons l pre ih =>
    intro done hdone hpre
    have hget : (done ++ (l :: pre ++ x :: post)).get? done.length = some l := by
      rw [List.get?_eq_getElem?, List.getElem?_append_right (Nat.le_refl _)]
      simp
    have hl : ¬ id = l.LeaseID := fun hc => hpre l (List.mem_cons_self _ _) hc.symm
    have hstep : rmleaseLoop id ((l :: pre).length + (post.length + 1)) done.length
        { arr := done ++ (l :: pre ++ x :: post),
          len := done.length + (l :: pre).length + post.length + 1 } =
        rmleaseLoop id (pre.length + (post.length + 1)) (done.length + 1)
          { arr := done ++ (l :: pre ++ x :: post),
            len := done.length + (l :: pre).length + post.length + 1 } := by
      have e : (l :: pre).length + (post.length + 1) =
          (pre.length + (post.length + 1)) + 1 := by
        simp only [List.length_cons]
        omega
      rw [e]
      conv_lhs => unfold rmleaseLoop
      simp only [hget]
      rw [if_neg hl]
    rw [hstep]
    have hih := ih (done ++ [l])
      (by
        intro a ha
        rw [List.mem_append, List.mem_singleton] at ha
        rcases ha with ha | ha
        · exact hdone a ha
        · rw [ha]
          exact fun hc => hl hc.symm)
      (fun a ha => hpre a (List.mem_cons_of_mem _ ha))
    have ea : (done ++ [l]) ++ (pre ++ x :: post) = done ++ (l :: pre ++ x :: post) := by
      simp
    have eb : (done ++ [l]) ++ (pre ++ (post ++ (x :: post).drop post.length)) =
        done ++ (l :: pre ++ (post ++ (x :: post).drop post.length)) := by
      simp
    have el : (done ++ [l]).length = done.length + 1 := by simp
    have en : done.length + (l :: pre).length + post.length =
        done.length + 1 + pre.length + post.length := by
      simp only [List.length_cons]
      omega
    rw [ea, eb, el] at hih
    rw [en]
    exact hih


theorem rmlease_single_match (id : LeaseID) (pre : List LeaseWon) (x : LeaseWon)
    (post : List LeaseWon) (hx : x.LeaseID = id) (hpre : ∀ l ∈ pre, l.LeaseID ≠ id)
    (hpost : ∀ l ∈ post, l.LeaseID ≠ id) :
    rmlease id (pre ++ x :: post) = .ok (pre ++ post) := by
  have h := rmleaseLoop_single_match id x post hx hpost pre []
    (fun l hl => absurd hl (List.not_mem_nil l)) hpre
  have hlen : (pre ++ x :: post).length = pre.length + (post.length + 1) := by simp
  have hlen2 : pre.length + (post.length + 1) =
      ([] : List LeaseWon).length + pre.length + post.length + 1 := by
    simp only [List.length_nil]
    omega
  unfold rmlease
  rw [hlen]
  have h2 : rmleaseLoop id (pre.length + (post.length + 1)) 0
      { arr := pre ++ x :: post, len := pre.length + (post.length + 1) } =
      .ok { arr := pre ++ (post ++ (x :: post).drop post.length),
            len := pre.length + post.length } := by
    rw [hlen2]
    simpa using h
  rw [h2]
  simp only
  rw [← List.append_assoc, List.take_append_of_le_length (by simp)]
  rw [List.take_of_length_le (by simp)]

theorem filter_single_match (id : LeaseID) (pre : List LeaseWon) (x : LeaseWon)
    (post : List LeaseWon) (hx : x.LeaseID = id) (hpre : ∀ l ∈ pre, l.LeaseID ≠ id)
    (hpost : ∀ l ∈ post, l.LeaseID ≠ id) :
    (pre ++ x :: post).filter (fun l => decide (l.LeaseID ≠ id)) = pre ++ post := by
  have h1 : pre.filter (fun l => decide (l.LeaseID ≠ id)) = pre :=
    List.filter_eq_self.2 (fun l hl => by simpa using hpre l hl)
  have h2 : post.filter (fun l => decide (l.LeaseID ≠ id)) = post :=
    List.filter_eq_self.2 (fun l hl => by simpa using hpost l hl)
  rw [List.filter_append, List.filter_cons, h1, h2]
  simp [hx]

theorem split_unique_lease (id : LeaseID) (leases : List LeaseWon)
    (hnd : (leases.map (fun l => l.LeaseID)).Nodup)
    (hmem : id ∈ leases.map (fun l => l.LeaseID)) :
    ∃ pre x post, leases = pre ++ x :: post ∧ x.LeaseID = id ∧
      (∀ l ∈ pre, l.LeaseID ≠ id) ∧ (∀ l ∈ post, l.LeaseID ≠ id) := by
  obtain ⟨x, hxm, hx⟩ := List.mem_map.1 hmem
  obtain ⟨pre, post, hsplit⟩ := List.append_of_mem hxm
  subst hsplit
  rw [List.map_append, List.map_cons, List.nodup_append] at hnd
  obtain ⟨_, hn2, hdis⟩ := hnd
  rw [List.nodup_cons] at hn2
  refine ⟨pre, x, post, rfl, hx, ?_, ?_⟩
  · intro l hl hc
    exact hdis (List.mem_map.2 ⟨l, hl, hc⟩) (by rw [hx]; exact List.mem_cons_self _ _)
  · intro l hl hc
    apply hn2.1
    rw [hx]
    exact List.mem_map.2 ⟨l, hl, hc⟩

/-- C18: when no two tracked leases have the same LeaseID and the identifier
is the LeaseID of one of them, the removal loop, whatever the spare capacity of
the slice, completes within bounds and leaves the lease list with exactly that
entry taken out (the list is `pre ++ x :: post` and becomes `pre ++ post`), the
others in their order, the length one less; and so does the whole case. -/
theorem rmleasech_removes_the_one_match (env : Env) (bus : BusAnswers) (s : Sys)
    (id : LeaseID) (spare : List LeaseWon)
    (hnd : (s.m.leases.map (fun l => l.LeaseID)).Nodup)
    (hmem : id ∈ s.m.leases.map (fun l => l.LeaseID)) :
    rmleaseCap id s.m.leases spare =
      .ok (s.m.leases.filter (fun l => decide (l.LeaseID ≠ id))) ∧
    (∃ pre x post, s.m.leases = pre ++ x :: post ∧ x.LeaseID = id ∧
      s.m.leases.filter (fun l => decide (l.LeaseID ≠ id)) = pre ++ post) ∧
    (s.m.leases.filter (fun l => decide (l.LeaseID ≠ id))).length + 1 =
      s.m.leases.length ∧
    ∃ s1, (step env bus s (.rmleasech id)).2.state? = some s1 ∧
      s1.m.leases = s.m.leases.filter (fun l => decide (l.LeaseID ≠ id)) := by
  obtain ⟨pre, x, post, hsplit, hx, hpre, hpost⟩ := split_unique_lease id s.m.leases hnd hmem
  have hrm : rmlease id s.m.leases = .ok (pre ++ post) := by
    rw [hsplit]
    exact rmlease_single_match id pre x post hx hpre hpost
  have hfil : s.m.leases.filter (fun l => decide (l.LeaseID ≠ id)) = pre ++ post := by
    rw [hsplit]
    exact filter_single_match id pre x post hx hpre hpost
  refine ⟨?_, ⟨pre, x, post, hsplit, hx, hfil⟩, ?_, ?_⟩
  · rw [rmleaseCap_eq_rmlease, hrm, hfil]
  · rw [hfil, hsplit]
    simp
    omega
  · simp only [step, hrm]
    obtain ⟨s1, h1, _, _, h3, _⟩ :=
      reconcile_frame false { s with m := { s.m with leases := pre ++ post } } []
    exact ⟨s1, h1, by rw [h3, hfil]⟩

/-- C18 at a concrete list: the leases 1, 2, 3 in a slice with one spare cell;
lease 2 is removed. -/
theorem rmleasech_removes_the_one_match_witness :
    rmleaseCap ⟨2⟩ [⟨⟨1⟩, ⟨10⟩, 0⟩, ⟨⟨2⟩, ⟨20⟩, 0⟩, ⟨⟨3⟩, ⟨30⟩, 0⟩] [⟨⟨0⟩, ⟨0⟩, 0⟩] =
      .ok [⟨⟨1⟩, ⟨10⟩, 0⟩, ⟨⟨3⟩, ⟨30⟩, 0⟩] :=
  (rmleasech_removes_the_one_match ⟨fun _ _ => none, fun _ _ => none⟩ (fun _ => none)
    { m := { data := none, requests := [],
             leases := [⟨⟨1⟩, ⟨10⟩, 0⟩, ⟨⟨2⟩, ⟨20⟩, 0⟩, ⟨⟨3⟩, ⟨30⟩, 0⟩],
             manifests := [], versions := [], stoptimer := none },
      runch := true }
    ⟨2⟩ [⟨⟨0⟩, ⟨0⟩, 0⟩] (by decide) (by decide)).1

/-- C17, at the failing input: the same lease won twice, then removed.  On the
slice [A, A], whatever its spare capacity, the loop removes the first entry,
reads the stale second cell at index 1, matches again and evaluates
`m.leases[2:]` on a slice of length 1: the case panics; so does it on
[A, B, A]. -/
theorem rmleasech_panics_on_a_duplicate :
    (∀ spare : List LeaseWon,
      rmleaseCap ⟨1⟩ [⟨⟨1⟩, ⟨10⟩, 0⟩, ⟨⟨1⟩, ⟨10⟩, 0⟩] spare = .panic) ∧
    spliceOut { arr := [⟨⟨1⟩, ⟨10⟩, 0⟩, ⟨⟨1⟩, ⟨10⟩, 0⟩], len := 1 } 1 = .panic ∧
    rmleaseCap ⟨1⟩ [⟨⟨1⟩, ⟨10⟩, 0⟩, ⟨⟨2⟩, ⟨20⟩, 0⟩, ⟨⟨1⟩, ⟨10⟩, 0⟩] [] = .panic ∧
    runLoop ⟨fun _ _ => none, fun _ _ => none⟩ (fun _ _ => none) Sys.init
        [.leasech ⟨⟨1⟩, ⟨10⟩, 0⟩, .leasech ⟨⟨1⟩, ⟨10⟩, 0⟩, .rmleasech ⟨1⟩] =
      ([.fetchStarted], .panic) := by
  refine ⟨?_, by decide, by decide, by decide⟩
  intro spare
  rw [rmleaseCap_eq_rmlease]
  decide

end ManifestManager
